import Mathlib

/-!
# CoPPer: a power-capping feedback controller

A shallow embedding of `src/copper.c` (with `inc/copper.h` and
`src/copper-constants.h`) and theorems about it.

Conventions of the embedding.

* `double` is an arbitrary linearly ordered field `α` with a floor function
  (exact arithmetic; the rationals and the reals are instances).  The decimal
  literals of the C source are read as the exact rationals they denote.
  Division by zero, which C evaluates to an infinity or a NaN, evaluates to
  `0` in `α`; theorems that depend on a quotient say when its divisor is nonzero.
* `uint64_t` and `uint32_t` values are natural numbers; every place where the C
  code can wrap or truncate carries an explicit `%`.
* The `copper*` argument is never `NULL`: every operation takes the record itself.
* `assert` is modelled: a failed assertion aborts, which is the result `none`.
* Caller-owned memory that the record points to is held by value:
  the log buffer is a total map from slot index to entry, the log file is the
  list of lines written so far together with the behaviour of `fprintf` on it.
* The natural logarithm of `math.h` is a parameter `log`.
-/

set_option linter.unusedSectionVars false
set_option linter.unnecessarySeqFocus false

namespace Copper

/-! ## Data model (`inc/copper.h`) -/

/-- State of the Kalman filter. -/
structure copper_filter_state (α : Type) where
  x_hat_minus : α
  x_hat : α
  p_minus : α
  h : α
  k : α
  p : α
  q : α
  r : α

/-- State of the control law, including old xup and error values. -/
structure copper_xup_state (α : Type) where
  u : α
  uo : α
  uoo : α
  e : α
  eo : α
  p1 : α
  p2 : α
  z1 : α
  mu : α
  epc : α
  gl : α

/-- User-defined parameters. -/
structure copper_context (α : Type) where
  constraint_target : α
  cost_min : α
  cost_max : α

/-- One element of the log buffer array. -/
structure copper_log_buffer (α : Type) where
  id : Nat
  user_tag : Nat
  constraint_achieved : α
  fs : copper_filter_state α
  workload : α
  u : α
  e : α
  cu : α

/-- The thirteen values that one `fprintf` of `flush_log_file` prints, in column order. -/
structure log_row (α : Type) where
  id : Nat
  user_tag : Nat
  constraint_achieved : α
  x_hat_minus : α
  x_hat : α
  p_minus : α
  h : α
  k : α
  p : α
  workload : α
  u : α
  e : α
  cu : α

/-- A line of the log file: the header of `copper_set_logging` or a row of `flush_log_file`. -/
inductive log_line (α : Type) where
  | header : log_line α
  | row : log_row α → log_line α

/-- A `FILE*` stream: the lines written so far, and how `fprintf` behaves on it.
`fault = none`: writes succeed.  `fault = some e`: every `fprintf` fails and leaves `errno = e`
(`e = 0` when it fails without setting `errno`). -/
structure FILE (α : Type) where
  out : List (log_line α)
  fault : Option Nat

/-- Logging configuration and state.  `lb = none` and `lf = none` are the `NULL` pointers. -/
structure copper_log_state (α : Type) where
  id : Nat
  lb_length : Nat
  lb : Option (Nat → copper_log_buffer α)
  lf : Option (FILE α)

/-- The top-level context/state struct. -/
structure copper (α : Type) where
  ctx : copper_context α
  fs : copper_filter_state α
  xs : copper_xup_state α
  ls : copper_log_state α

/-! ## Constants (`src/copper-constants.h`, `errno.h`, `float.h`) -/

section Defs

variable {α : Type} [LinearOrderedField α]

def X_HAT_MINUS_START : α := 0
def X_HAT_START : α := 2 / 10
def P_START : α := 1
def P_MINUS_START : α := 0
def H_START : α := 0
def K_START : α := 0
def Q_DEFAULT : α := 1 / 100000
def R_DEFAULT : α := 1 / 100
def P1_DEFAULT : α := 0
def P2_DEFAULT : α := 0
def Z1_DEFAULT : α := 0
def MU_DEFAULT : α := 1
def E_START : α := 0
def EO_START : α := 0
def GAIN_LIMIT_DEFAULT : α := 0
def EPC_DEFAULT : α := 5 / 100

/-- The value of `EINVAL` in `errno.h`. -/
def EINVAL : Nat := 22

/-- The value of the input/output error code of `errno.h` (its C name is the letter E
followed by the letters I and O). -/
def EIO_code : Nat := 5

/-- The value of `DBL_EPSILON` in `float.h` for IEEE doubles. -/
def DBL_EPSILON : α := 1 / 2 ^ 52

/-- Width of `uint64_t`. -/
def UINT64_MOD : Nat := 2 ^ 64

/-- Width of `uint32_t`. -/
def UINT32_MOD : Nat := 2 ^ 32

/-! ## The estimator and the control law -/

/-- Function `estimate_base_workload`: one Kalman filter update.  Returns the workload `w` and the
updated filter state. -/
def estimate_base_workload (fs : copper_filter_state α) (current_workload last_xup : α) :
    α × copper_filter_state α :=
  let x_hat_minus := fs.x_hat
  let p_minus := fs.p + fs.q
  let h := last_xup
  let k := (p_minus * h) / ((h * p_minus * h) + fs.r)
  let x_hat := x_hat_minus + (k * (current_workload - (h * x_hat_minus)))
  let p := (1 - (k * h)) * p_minus
  let w := 1 / x_hat
  (w, { fs with x_hat_minus := x_hat_minus, p_minus := p_minus, h := h, k := k,
                x_hat := x_hat, p := p })

/-- Function `get_confidence_zone`: `none` when one of its two assertions fails. -/
def get_confidence_zone (log : α → α) (pole epsilon : α) : Option α :=
  if pole ≥ 0 ∧ pole < 1 then
    if epsilon > 0 ∧ epsilon < 1 then
      some (if pole < DBL_EPSILON then 0 else log epsilon / log pole)
    else none
  else none

/-- Function `clamp`. -/
def clamp (val min max : α) : α :=
  if val < min then min else (if val > max then max else val)

/-- Function `calculate_xup`: the new control-law state; `none` when an assertion of
`get_confidence_zone` fails. -/
def calculate_xup [FloorRing α] (log : α → α) (xs : copper_xup_state α) (target achieved w : α) (id : Nat)
    (umax : α) : Option (copper_xup_state α) :=
  let P1 := xs.p1
  let P2 := xs.p2
  let Z1 := xs.z1
  let MU := xs.mu
  let A := -(-(P1 * Z1) - (P2 * Z1) + (MU * P1 * P2) - (MU * P2) + P2 - (MU * P1) + P1 + MU)
  let B := -(-(MU * P1 * P2 * Z1) + (P1 * P2 * Z1) + (MU * P2 * Z1) + (MU * P1 * Z1)
              - (MU * Z1) - (P1 * P2))
  let C := (((MU - (MU * P1)) * P2) + (MU * P1) - MU) * w
  let D := ((((MU * P1) - MU) * P2) - (MU * P1) + MU) * w * Z1
  let F := 1 / (Z1 - 1)
  let e := target - achieved
  let u0 := F * ((A * xs.uo) + (B * xs.uoo) + (C * e) + (D * xs.eo))
  let u1 := clamp u0 1 umax
  match get_confidence_zone log P1 xs.epc with
  | none => none
  | some cz =>
    let u2 :=
      if (id : α) > ((⌈cz⌉ : ℤ) : α) then
        let en := |e| / target
        let eno := |xs.eo| / target
        let den := |eno - en|
        let ens := 1 - (1 / (en + 1))
        let dens := 1 / (den + 1)
        let gain := 1 - (xs.gl * dens * ens)
        clamp (gain * u1) 1 umax
      else u1
    some { xs with e := e, u := u2, uoo := xs.uo, uo := u2, eo := e }

/-! ## Logging -/

/-- The call `fprintf` of one line: the return value (negative on failure) and the stream afterwards. -/
def fprintf (lf : FILE α) (l : log_line α) : Int × FILE α :=
  match lf.fault with
  | none => (1, { lf with out := lf.out ++ [l] })
  | some _ => (-1, lf)

/-- The arguments that `flush_log_file` passes to `fprintf` for the entry `b`. -/
def row_of (b : copper_log_buffer α) : log_row α :=
  { id := b.id, user_tag := b.user_tag, constraint_achieved := b.constraint_achieved,
    x_hat_minus := b.fs.x_hat_minus, x_hat := b.fs.x_hat, p_minus := b.fs.p_minus,
    h := b.fs.h, k := b.fs.k, p := b.fs.p,
    workload := b.workload, u := b.u, e := b.e, cu := b.cu }

/-- The loop of `flush_log_file`, started at index `i` with `n` iterations left. -/
def flush_loop (lb : Nat → copper_log_buffer α) : Nat → Nat → FILE α → FILE α
  | _, 0, lf => lf
  | i, n + 1, lf => flush_loop lb (i + 1) n (fprintf lf (log_line.row (row_of (lb i)))).2

/-- Function `flush_log_file`: if log file and buffer exist, writes `count` entries from the start
of the buffer.  Returns the stream afterwards. -/
def flush_log_file (lf : Option (FILE α)) (lb : Option (Nat → copper_log_buffer α))
    (count : Nat) : Option (FILE α) :=
  match lb, lf with
  | some b, some f => some (flush_loop b 0 count f)
  | _, _ => lf

/-- Function `copper_log`: record an entry in the circular buffer, flushing when it becomes full.
The parameter `tag` of `copper_log` is a `uint32_t`, so the caller's tag is truncated;
`ls->id++` wraps at 64 bits. -/
def copper_log (cop : copper α) (tag : Nat) (constraint_achieved workload cost : α) :
    copper α :=
  match cop.ls.lb with
  | none => cop
  | some lb =>
    if cop.ls.lb_length > 0 then
      let i := cop.ls.id % cop.ls.lb_length
      let entry : copper_log_buffer α :=
        { id := cop.ls.id, user_tag := tag % UINT32_MOD,
          constraint_achieved := constraint_achieved, fs := cop.fs, workload := workload,
          u := cop.xs.u, e := cop.xs.e, cu := cost }
      let lb1 := Function.update lb i entry
      let lf1 := if i = cop.ls.lb_length - 1
                 then flush_log_file cop.ls.lf (some lb1) cop.ls.lb_length
                 else cop.ls.lf
      { cop with ls := { cop.ls with lb := some lb1, lf := lf1,
                                     id := (cop.ls.id + 1) % UINT64_MOD } }
    else cop

/-! ## The public operations -/

/-- Function `copper_init`: the return value and the record afterwards. -/
def copper_init (cop : copper α) (performance_target power_min power_max power_start : α) :
    Int × copper α :=
  if performance_target ≤ 0 ∨ power_min ≤ 0 ∨ power_max < power_min ∨
      power_start < power_min ∨ power_start > power_max then
    (-(EINVAL : Int), cop)
  else
    (0,
     { ctx := { constraint_target := performance_target, cost_min := power_min,
                cost_max := power_max },
       fs := { x_hat_minus := X_HAT_MINUS_START, x_hat := X_HAT_START,
               p_minus := P_MINUS_START, h := H_START, k := K_START, p := P_START,
               q := Q_DEFAULT, r := R_DEFAULT },
       xs := { u := power_start / power_min, uo := power_start / power_min,
               uoo := power_start / power_min, e := E_START, eo := EO_START,
               p1 := P1_DEFAULT, p2 := P2_DEFAULT, z1 := Z1_DEFAULT, mu := MU_DEFAULT,
               epc := EPC_DEFAULT, gl := GAIN_LIMIT_DEFAULT },
       ls := { id := 0, lb_length := 0, lb := none, lf := none } })

/-- Function `copper_destroy`: flush the log buffer (if used). -/
def copper_destroy (cop : copper α) : copper α :=
  if cop.ls.lb_length > 0 then
    { cop with ls := { cop.ls with
        lf := flush_log_file cop.ls.lf cop.ls.lb (cop.ls.id % cop.ls.lb_length) } }
  else cop

/-- Function `copper_adapt`: `none` when an assertion fails, otherwise the returned double and the
record afterwards. -/
def copper_adapt [FloorRing α] (log : α → α) (cop : copper α) (tag : Nat) (performance : α) :
    Option (α × copper α) :=
  if performance < 0 then
    some (-(EINVAL : α), cop)
  else
    let est := estimate_base_workload cop.fs performance cop.xs.u
    let workload := est.1
    match calculate_xup log cop.xs cop.ctx.constraint_target performance workload cop.ls.id
            (cop.ctx.cost_max / cop.ctx.cost_min) with
    | none => none
    | some xs =>
      let cost := xs.u * cop.ctx.cost_min
      if cost ≥ cop.ctx.cost_min then
        if cost ≤ cop.ctx.cost_max then
          some (cost, copper_log { cop with fs := est.2, xs := xs } tag performance workload cost)
        else none
      else none

/-- Function `copper_set_logging`: the return value and the record afterwards.  When the header
cannot be written the call returns `-errno`, with `errno` the value `fprintf` left or, when it
left none, the input/output error code.  The stream the record points to afterwards is the
caller's stream with the header written to it. -/
def copper_set_logging (cop : copper α) (lb : Option (Nat → copper_log_buffer α))
    (lb_length : Nat) (lf : Option (FILE α)) : Int × copper α :=
  match lf with
  | none => (0, { cop with ls := { id := 0, lb_length := lb_length, lb := lb, lf := none } })
  | some f =>
    let w := fprintf f log_line.header
    if w.1 < 0 then
      let errno := f.fault.getD 0
      (-((if errno = 0 then EIO_code else errno : Nat) : Int), cop)
    else
      (0, { cop with ls := { id := 0, lb_length := lb_length, lb := lb, lf := some w.2 } })

/-- Function `copper_set_performance_target`. -/
def copper_set_performance_target (cop : copper α) (target : α) : Int × copper α :=
  if target ≤ 0 then (-(EINVAL : Int), cop)
  else (0, { cop with ctx := { cop.ctx with constraint_target := target } })

/-- Function `copper_set_gain_limit`. -/
def copper_set_gain_limit (cop : copper α) (gain : α) : Int × copper α :=
  if gain < 0 ∨ gain ≥ 1 then (-(EINVAL : Int), cop)
  else (0, { cop with xs := { cop.xs with gl := gain } })

/-! ## Reachable states -/

/-- The records a caller can obtain: a successful `copper_init` followed by any sequence of
calls of the other operations (failed calls included, they return the record they were
given; a `copper_adapt` that aborts on an assertion ends the program). -/
inductive Reachable [FloorRing α] (log : α → α) : copper α → Prop
  | init (cop : copper α) (t pmin pmax pstart : α) :
      (copper_init cop t pmin pmax pstart).1 = 0 →
      Reachable log (copper_init cop t pmin pmax pstart).2
  | adapt (s : copper α) (tag : Nat) (perf r : α) (s' : copper α) :
      Reachable log s → copper_adapt log s tag perf = some (r, s') → Reachable log s'
  | set_performance_target (s : copper α) (t : α) :
      Reachable log s → Reachable log (copper_set_performance_target s t).2
  | set_gain_limit (s : copper α) (g : α) :
      Reachable log s → Reachable log (copper_set_gain_limit s g).2
  | set_logging (s : copper α) (lb : Option (Nat → copper_log_buffer α)) (n : Nat)
      (lf : Option (FILE α)) :
      Reachable log s → Reachable log (copper_set_logging s lb n lf).2
  | destroy (s : copper α) : Reachable log s → Reachable log (copper_destroy s)

/-- The invariant of the reachable records that the theorems below rest on. -/
structure Inv (s : copper α) : Prop where
  target_pos : 0 < s.ctx.constraint_target
  min_pos : 0 < s.ctx.cost_min
  min_le_max : s.ctx.cost_min ≤ s.ctx.cost_max
  one_le_u : 1 ≤ s.xs.u
  u_le : s.xs.u ≤ s.ctx.cost_max / s.ctx.cost_min
  uo_eq : s.xs.uo = s.xs.u
  p1_eq : s.xs.p1 = 0
  p2_eq : s.xs.p2 = 0
  z1_eq : s.xs.z1 = 0
  mu_eq : s.xs.mu = 1
  epc_eq : s.xs.epc = 5 / 100
  gl_nonneg : 0 ≤ s.xs.gl
  gl_lt : s.xs.gl < 1
  x_hat_pos : 0 < s.fs.x_hat
  p_nonneg : 0 ≤ s.fs.p
  q_eq : s.fs.q = 1 / 100000
  r_eq : s.fs.r = 1 / 100

/-! ## Comparing records up to the user tag -/

/-- A line of the log file with its user-tag column set to 0. -/
def line_forget_tag : log_line α → log_line α
  | log_line.header => log_line.header
  | log_line.row r => log_line.row { r with user_tag := 0 }

/-- A log buffer with the user tag of the entry in `slot` set to 0. -/
def forget_tag_at (slot : Nat) (lb : Nat → copper_log_buffer α) : Nat → copper_log_buffer α :=
  Function.update lb slot { lb slot with user_tag := 0 }

/-- What two streams must share to differ at most in the user-tag column of their last
line: every line but the last, the last line up to its tag, and the behaviour of `fprintf`. -/
def sink_view (f : FILE α) : List (log_line α) × Option (log_line α) × Option Nat :=
  (f.out.dropLast, f.out.getLast?.map line_forget_tag, f.fault)

/-- Two records that differ at most in the user tag of the buffer entry in `slot` and, when
that slot is the last of the buffer (the step that wrote it flushed), in the user-tag column
of the last line of the log file, which is the row of that entry. -/
def same_up_to_tag (slot : Nat) (a b : copper α) : Prop :=
  a.ctx = b.ctx ∧ a.fs = b.fs ∧ a.xs = b.xs ∧
  a.ls.id = b.ls.id ∧ a.ls.lb_length = b.ls.lb_length ∧
  a.ls.lb.map (forget_tag_at slot) = b.ls.lb.map (forget_tag_at slot) ∧
  a.ls.lf.map sink_view = b.ls.lf.map sink_view ∧
  (slot ≠ a.ls.lb_length - 1 → a.ls.lf = b.ls.lf)

/-- Two results of `copper_adapt` that agree on the returned value and differ in the records
at most in the user tag written by the step. -/
def results_same_up_to_tag (slot : Nat) :
    Option (α × copper α) → Option (α × copper α) → Prop
  | some r1, some r2 => r1.1 = r2.1 ∧ same_up_to_tag slot r1.2 r2.2
  | none, none => True
  | _, _ => False

/-- The rows that `flush_log_file` writes for the slots `i, ..., i + n - 1`. -/
def flush_rows (lb : Nat → copper_log_buffer α) (i n : Nat) : List (log_line α) :=
  (List.range' i n).map fun j => log_line.row (row_of (lb j))

/-! ## Runs of `copper_adapt` and what they log -/

/-- The line that `flush_log_file` prints for a buffer entry. -/
def line_of (b : copper_log_buffer α) : log_line α := log_line.row (row_of b)

/-- The sequence-id column of a line of the log file (`none` for the header). -/
def line_id : log_line α → Option Nat
  | log_line.header => none
  | log_line.row r => some r.id

/-- The entry that the `copper_log` call of `copper_adapt` stores, read off the record `s`
before the call, the arguments, the returned cap and the record `s'` after the call. -/
def entry_of (s : copper α) (tag : Nat) (perf cap : α) (s' : copper α) : copper_log_buffer α :=
  { id := s.ls.id, user_tag := tag % UINT32_MOD, constraint_achieved := perf, fs := s'.fs,
    workload := (estimate_base_workload s.fs perf s.xs.u).1, u := s'.xs.u, e := s'.xs.e,
    cu := cap }

/-- Consecutive calls of `copper_adapt`, one for each `(tag, performance)` of the list;
`none` when a call aborts on an assertion. -/
def adapt_all [FloorRing α] (log : α → α) : copper α → List (Nat × α) → Option (copper α)
  | s, [] => some s
  | s, x :: rest =>
    match copper_adapt log s x.1 x.2 with
    | none => none
    | some r => adapt_all log r.2 rest

/-- The entries of the steps of `adapt_all`, in the order of the calls. -/
def run_entries [FloorRing α] (log : α → α) :
    copper α → List (Nat × α) → List (copper_log_buffer α)
  | _, [] => []
  | s, x :: rest =>
    match copper_adapt log s x.1 x.2 with
    | none => []
    | some r => entry_of s x.1 x.2 r.1 r.2 :: run_entries log r.2 rest

/-- The state of the log after the steps that recorded the entries `E`, on a record whose
log file held the lines `o` when logging was configured with capacity `N`: the buffer `buf`
holds the last `N` entries, each in the slot of its index, and the file `f` holds `o` followed
by the rows of the entries of the completed rounds. -/
structure LogInv (N : Nat) (o : List (log_line α)) (E : List (copper_log_buffer α))
    (s : copper α) (buf : Nat → copper_log_buffer α) (f : FILE α) : Prop where
  len : s.ls.lb_length = N
  id_eq : s.ls.id = E.length % UINT64_MOD
  lb_eq : s.ls.lb = some buf
  lf_eq : s.ls.lf = some f
  ok : f.fault = none
  out_eq : f.out = o ++ (E.take (E.length - E.length % N)).map line_of
  window : ∀ m, m < E.length → E.length ≤ m + N → E[m]? = some (buf (m % N))
  ids : E.map (fun e => e.id) = List.range E.length

/-- The rows that `copper_destroy` writes to the stream `f` of the record `s`: those of the
first `id % lb_length` slots when the capacity is positive, the buffer exists and writes to
`f` succeed, and none otherwise. -/
def destroy_rows (s : copper α) (f : FILE α) : List (log_line α) :=
  if 0 < s.ls.lb_length then
    match s.ls.lb, f.fault with
    | some buf, none => flush_rows buf 0 (s.ls.id % s.ls.lb_length)
    | _, _ => []
  else []

/-! ## The expressions of `calculate_xup` by name -/

/-- The coefficient `A` of `calculate_xup`. -/
def xup_A (xs : copper_xup_state α) : α :=
  -(-(xs.p1 * xs.z1) - (xs.p2 * xs.z1) + (xs.mu * xs.p1 * xs.p2) - (xs.mu * xs.p2) + xs.p2
    - (xs.mu * xs.p1) + xs.p1 + xs.mu)

/-- The coefficient `B` of `calculate_xup`. -/
def xup_B (xs : copper_xup_state α) : α :=
  -(-(xs.mu * xs.p1 * xs.p2 * xs.z1) + (xs.p1 * xs.p2 * xs.z1) + (xs.mu * xs.p2 * xs.z1)
    + (xs.mu * xs.p1 * xs.z1) - (xs.mu * xs.z1) - (xs.p1 * xs.p2))

/-- The coefficient `C` of `calculate_xup`. -/
def xup_C (xs : copper_xup_state α) (w : α) : α :=
  (((xs.mu - (xs.mu * xs.p1)) * xs.p2) + (xs.mu * xs.p1) - xs.mu) * w

/-- The coefficient `D` of `calculate_xup`. -/
def xup_D (xs : copper_xup_state α) (w : α) : α :=
  ((((xs.mu * xs.p1) - xs.mu) * xs.p2) - (xs.mu * xs.p1) + xs.mu) * w * xs.z1

/-- The coefficient `F` of `calculate_xup`. -/
def xup_F (xs : copper_xup_state α) : α := 1 / (xs.z1 - 1)

/-- The control value of `calculate_xup` before it is clamped. -/
def xup_raw (xs : copper_xup_state α) (target achieved w : α) : α :=
  xup_F xs * ((xup_A xs * xs.uo) + (xup_B xs * xs.uoo) + (xup_C xs w * (target - achieved))
    + (xup_D xs w * xs.eo))

/-- The normalized error scalar `ens` of `calculate_xup`, for the error `e`. -/
def xup_ens (e target : α) : α := 1 - (1 / (|e| / target + 1))

/-- The error delta scalar `dens` of `calculate_xup`, for the errors `e` and `eo`. -/
def xup_dens (e eo target : α) : α := 1 / (|(|eo| / target) - (|e| / target)| + 1)

/-- The gain of `calculate_xup`. -/
def xup_gain (gl e eo target : α) : α := 1 - (gl * xup_dens e eo target * xup_ens e target)

/-- The control value that `calculate_xup` stores: the clamped raw value, scaled by the gain
and clamped again when `limited`. -/
def xup_new_u (xs : copper_xup_state α) (target achieved w umax : α) (limited : Prop)
    [Decidable limited] : α :=
  if limited then
    clamp (xup_gain xs.gl (target - achieved) xs.eo target *
      clamp (xup_raw xs target achieved w) 1 umax) 1 umax
  else clamp (xup_raw xs target achieved w) 1 umax

/-- The values that consecutive calls of `copper_adapt` return, one for each
`(tag, performance)` of the list, up to the first call that aborts on an assertion. -/
def adapt_returns [FloorRing α] (log : α → α) : copper α → List (Nat × α) → List α
  | _, [] => []
  | s, x :: rest =>
    match copper_adapt log s x.1 x.2 with
    | none => []
    | some r => r.1 :: adapt_returns log r.2 rest

/-- The record `s` with the gain limit `g`, everything else as in `s`. -/
def with_gain_limit (s : copper α) (g : α) : copper α :=
  { s with xs := { s.xs with gl := g } }

end Defs

/-! ## Concrete inputs over the rationals -/

/-- A record before `copper_init`: memory filled with zeros. -/
def blank : copper ℚ :=
  { ctx := { constraint_target := 0, cost_min := 0, cost_max := 0 },
    fs := { x_hat_minus := 0, x_hat := 0, p_minus := 0, h := 0, k := 0, p := 0, q := 0, r := 0 },
    xs := { u := 0, uo := 0, uoo := 0, e := 0, eo := 0, p1 := 0, p2 := 0, z1 := 0, mu := 0,
            epc := 0, gl := 0 },
    ls := { id := 0, lb_length := 0, lb := none, lf := none } }

/-- The record of the unit test: `copper_init(&cop, 1.0, 0.01, 100.0, 50.0)`. -/
def test_cop : copper ℚ := (copper_init blank 1 (1 / 100) 100 50).2

/-- A stand-in for the logarithm over the rationals (the theorems hold for every `log`). -/
def log0 : ℚ → ℚ := fun _ => 0

/-- An uninitialised entry of a log buffer: memory filled with zeros. -/
def blank_entry : copper_log_buffer ℚ :=
  { id := 0, user_tag := 0, constraint_achieved := 0, fs := blank.fs, workload := 0, u := 0,
    e := 0, cu := 0 }

/-- A log buffer of uninitialised entries. -/
def blank_buf : Nat → copper_log_buffer ℚ := fun _ => blank_entry

/-- An empty log file on which writes succeed. -/
def empty_file : FILE ℚ := { out := [], fault := none }

/-- A log file on which every write fails with `errno = ENOSPC` (28). -/
def full_file : FILE ℚ := { out := [], fault := some 28 }

/-- As many valid steps `copper_adapt(cop, 0, 1.0)` as the sequence id has values. -/
def wrap_inputs : List (Nat × ℚ) := List.replicate UINT64_MOD (0, 1)

/-- The estimator state that `copper_init` installs, over the rationals. -/
def init_fs : copper_filter_state ℚ :=
  { x_hat_minus := 0, x_hat := 2 / 10, p_minus := 0, h := 0, k := 0, p := 1,
    q := 1 / 100000, r := 1 / 100 }

/-- The record of the unit test after `copper_set_gain_limit(&cop, 0.5)`. -/
def gain_cop : copper ℚ := (copper_set_gain_limit test_cop (1 / 2)).2

/-! ## Basic lemmas -/

section Lemmas

variable {α : Type} [LinearOrderedField α]

theorem clamp_ge (v lo hi : α) (h : lo ≤ hi) : lo ≤ clamp v lo hi := by
  unfold clamp
  split_ifs with h1 h2
  · exact le_refl _
  · exact h
  · exact not_lt.mp h1

theorem clamp_le (v lo hi : α) (h : lo ≤ hi) : clamp v lo hi ≤ hi := by
  unfold clamp
  split_ifs with h1 h2
  · exact h
  · exact le_refl _
  · exact not_lt.mp h2

theorem DBL_EPSILON_pos : (0 : α) < DBL_EPSILON := by
  unfold DBL_EPSILON
  positivity

theorem get_confidence_zone_default (log : α → α) :
    get_confidence_zone log (0 : α) (5 / 100) = some 0 := by
  unfold get_confidence_zone
  have h1 : ((0 : α) ≥ 0 ∧ (0 : α) < 1) := ⟨le_refl _, zero_lt_one⟩
  have h2 : ((5 / 100 : α) > 0 ∧ (5 / 100 : α) < 1) := by
    constructor <;> norm_num
  rw [if_pos h1, if_pos h2, if_pos DBL_EPSILON_pos]

/-- One Kalman filter update over exact arithmetic: the estimate stays positive, the
covariance becomes `p_minus * r / (h^2 * p_minus + r)` with `p_minus = p + q`, which lies in
`[0, p + q]`, the noise constants are kept, and no divisor of the update is zero. -/
theorem estimate_base_workload_inv (fs : copper_filter_state α) (perf h : α)
    (hx : 0 < fs.x_hat) (hp : 0 ≤ fs.p) (hq : 0 ≤ fs.q) (hr : 0 < fs.r) (hperf : 0 ≤ perf)
    (hh : 0 ≤ h) :
    0 < (estimate_base_workload fs perf h).2.x_hat ∧
    (estimate_base_workload fs perf h).2.p =
      (fs.p + fs.q) * fs.r / (h ^ 2 * (fs.p + fs.q) + fs.r) ∧
    0 ≤ (estimate_base_workload fs perf h).2.p ∧
    (estimate_base_workload fs perf h).2.p ≤ fs.p + fs.q ∧
    (estimate_base_workload fs perf h).2.q = fs.q ∧
    (estimate_base_workload fs perf h).2.r = fs.r ∧
    0 < h * (fs.p + fs.q) * h + fs.r ∧
    (estimate_base_workload fs perf h).1 = 1 / (estimate_base_workload fs perf h).2.x_hat ∧
    0 < (estimate_base_workload fs perf h).1 := by
  have hpm : 0 ≤ fs.p + fs.q := add_nonneg hp hq
  have hden : 0 < (h * (fs.p + fs.q) * h) + fs.r := by positivity
  have hden2 : 0 < h ^ 2 * (fs.p + fs.q) + fs.r := by positivity
  have hkh : 1 - (((fs.p + fs.q) * h) / ((h * (fs.p + fs.q) * h) + fs.r) * h) =
      fs.r / ((h * (fs.p + fs.q) * h) + fs.r) := by
    field_simp
    ring
  have hxpos : 0 < fs.x_hat + ((fs.p + fs.q) * h) / ((h * (fs.p + fs.q) * h) + fs.r) *
      (perf - (h * fs.x_hat)) := by
    have hx' : fs.x_hat + ((fs.p + fs.q) * h) / ((h * (fs.p + fs.q) * h) + fs.r) *
        (perf - (h * fs.x_hat)) =
        fs.x_hat * (1 - (((fs.p + fs.q) * h) / ((h * (fs.p + fs.q) * h) + fs.r) * h)) +
          ((fs.p + fs.q) * h) / ((h * (fs.p + fs.q) * h) + fs.r) * perf := by ring
    rw [hx', hkh]
    have h1 : 0 < fs.x_hat * (fs.r / ((h * (fs.p + fs.q) * h) + fs.r)) := by positivity
    have h2 : 0 ≤ ((fs.p + fs.q) * h) / ((h * (fs.p + fs.q) * h) + fs.r) * perf := by
      positivity
    linarith
  have hpeq : (1 - (((fs.p + fs.q) * h) / ((h * (fs.p + fs.q) * h) + fs.r) * h)) *
      (fs.p + fs.q) = (fs.p + fs.q) * fs.r / (h ^ 2 * (fs.p + fs.q) + fs.r) := by
    rw [hkh]
    field_simp
    ring
  have hple : (fs.p + fs.q) * fs.r / (h ^ 2 * (fs.p + fs.q) + fs.r) ≤ fs.p + fs.q := by
    rw [div_le_iff₀ hden2]
    nlinarith [mul_nonneg hpm (sq_nonneg h)]
  unfold estimate_base_workload
  refine ⟨hxpos, hpeq, ?_, ?_, rfl, rfl, hden, rfl, ?_⟩
  · show 0 ≤ (1 - (((fs.p + fs.q) * h) / ((h * (fs.p + fs.q) * h) + fs.r) * h)) *
      (fs.p + fs.q)
    rw [hpeq]
    positivity
  · show (1 - (((fs.p + fs.q) * h) / ((h * (fs.p + fs.q) * h) + fs.r) * h)) *
      (fs.p + fs.q) ≤ fs.p + fs.q
    rw [hpeq]
    exact hple
  · exact one_div_pos.mpr hxpos

/-- With the constants of `copper_init`, `calculate_xup` passes its assertions, shifts the
history and leaves a control value inside `[1, umax]`. -/
theorem calculate_xup_default [FloorRing α] (log : α → α) (xs : copper_xup_state α)
    (target achieved w : α) (id : Nat) (umax : α) (hp1 : xs.p1 = 0) (hepc : xs.epc = 5 / 100) :
    ∃ u2 : α,
      calculate_xup log xs target achieved w id umax =
        some { xs with e := target - achieved, u := u2, uoo := xs.uo, uo := u2,
                       eo := target - achieved } ∧
      (1 ≤ umax → 1 ≤ u2 ∧ u2 ≤ umax) := by
  unfold calculate_xup
  simp only [hp1, hepc, get_confidence_zone_default]
  split_ifs with hid
  · exact ⟨_, rfl, fun h => ⟨clamp_ge _ _ _ h, clamp_le _ _ _ h⟩⟩
  · exact ⟨_, rfl, fun h => ⟨clamp_ge _ _ _ h, clamp_le _ _ _ h⟩⟩

theorem copper_log_ctx (cop : copper α) (tag : Nat) (a w c : α) :
    (copper_log cop tag a w c).ctx = cop.ctx := by
  unfold copper_log
  cases cop.ls.lb <;> simp only [] <;> split_ifs <;> rfl

theorem copper_log_fs (cop : copper α) (tag : Nat) (a w c : α) :
    (copper_log cop tag a w c).fs = cop.fs := by
  unfold copper_log
  cases cop.ls.lb <;> simp only [] <;> split_ifs <;> rfl

theorem copper_log_xs (cop : copper α) (tag : Nat) (a w c : α) :
    (copper_log cop tag a w c).xs = cop.xs := by
  unfold copper_log
  cases cop.ls.lb <;> simp only [] <;> split_ifs <;> rfl

/-- On a record that satisfies the invariant, a call of `copper_adapt` with a valid
performance passes every assertion and returns `u * cost_min` for the new `u`. -/
theorem copper_adapt_of_inv [FloorRing α] (log : α → α) (s : copper α) (hs : Inv s)
    (tag : Nat) (perf : α) (hperf : 0 ≤ perf) :
    ∃ xs' : copper_xup_state α,
      calculate_xup log s.xs s.ctx.constraint_target perf
          (estimate_base_workload s.fs perf s.xs.u).1 s.ls.id
          (s.ctx.cost_max / s.ctx.cost_min) = some xs' ∧
      copper_adapt log s tag perf =
        some (xs'.u * s.ctx.cost_min,
              copper_log { s with fs := (estimate_base_workload s.fs perf s.xs.u).2, xs := xs' }
                tag perf (estimate_base_workload s.fs perf s.xs.u).1 (xs'.u * s.ctx.cost_min)) ∧
      1 ≤ xs'.u ∧ xs'.u ≤ s.ctx.cost_max / s.ctx.cost_min ∧
      s.ctx.cost_min ≤ xs'.u * s.ctx.cost_min ∧ xs'.u * s.ctx.cost_min ≤ s.ctx.cost_max ∧
      xs'.uo = xs'.u ∧ xs'.p1 = s.xs.p1 ∧ xs'.p2 = s.xs.p2 ∧ xs'.z1 = s.xs.z1 ∧
      xs'.mu = s.xs.mu ∧ xs'.epc = s.xs.epc ∧ xs'.gl = s.xs.gl := by
  obtain ⟨u2, hcalc, hu⟩ := calculate_xup_default log s.xs s.ctx.constraint_target perf
    (estimate_base_workload s.fs perf s.xs.u).1 s.ls.id (s.ctx.cost_max / s.ctx.cost_min)
    hs.p1_eq hs.epc_eq
  have humax : 1 ≤ s.ctx.cost_max / s.ctx.cost_min := by
    rw [le_div_iff₀ hs.min_pos, one_mul]
    exact hs.min_le_max
  obtain ⟨h1, h2⟩ := hu humax
  have hlo : s.ctx.cost_min ≤ u2 * s.ctx.cost_min := by
    have := mul_le_mul_of_nonneg_right h1 (le_of_lt hs.min_pos)
    rwa [one_mul] at this
  have hhi : u2 * s.ctx.cost_min ≤ s.ctx.cost_max := (le_div_iff₀ hs.min_pos).mp h2
  refine ⟨_, hcalc, ?_, h1, h2, hlo, hhi, rfl, rfl, rfl, rfl, rfl, rfl, rfl⟩
  unfold copper_adapt
  rw [if_neg (not_lt.mpr hperf)]
  simp only [hcalc]
  rw [if_pos hlo, if_pos hhi]

theorem copper_init_ok_iff (cop : copper α) (t pmin pmax pstart : α) :
    (copper_init cop t pmin pmax pstart).1 = 0 ↔
      (0 < t ∧ 0 < pmin ∧ pmin ≤ pstart ∧ pstart ≤ pmax) := by
  unfold copper_init
  split_ifs with h
  · simp only [EINVAL]
    constructor
    · intro h0
      exact absurd h0 (by decide)
    · rintro ⟨h1, h2, h3, h4⟩
      rcases h with h | h | h | h | h
      · exact absurd h1 (not_lt.mpr h)
      · exact absurd h2 (not_lt.mpr h)
      · exact absurd (le_trans h3 h4) (not_le.mpr h)
      · exact absurd h3 (not_le.mpr h)
      · exact absurd h4 (not_le.mpr h)
  · simp only [not_or, not_le, not_lt] at h
    obtain ⟨h1, h2, _, h4, h5⟩ := h
    exact ⟨fun _ => ⟨h1, h2, h4, h5⟩, fun _ => rfl⟩

theorem inv_init (cop : copper α) (t pmin pmax pstart : α)
    (h : (copper_init cop t pmin pmax pstart).1 = 0) :
    Inv (copper_init cop t pmin pmax pstart).2 := by
  obtain ⟨h1, h2, h3, h4⟩ := (copper_init_ok_iff cop t pmin pmax pstart).mp h
  have hc : ¬ (t ≤ 0 ∨ pmin ≤ 0 ∨ pmax < pmin ∨ pstart < pmin ∨ pstart > pmax) := by
    simp only [not_or, not_le, not_lt]
    exact ⟨h1, h2, le_trans h3 h4, h3, h4⟩
  unfold copper_init
  rw [if_neg hc]
  refine ⟨h1, h2, le_trans h3 h4, ?_, ?_, rfl, rfl, rfl, rfl, rfl, rfl, ?_, ?_, ?_, ?_, rfl,
    rfl⟩
  · show 1 ≤ pstart / pmin
    rw [le_div_iff₀ h2, one_mul]
    exact h3
  · show pstart / pmin ≤ pmax / pmin
    exact div_le_div_of_nonneg_right h4 (le_of_lt h2)
  · show (0 : α) ≤ GAIN_LIMIT_DEFAULT
    exact le_refl _
  · show (GAIN_LIMIT_DEFAULT : α) < 1
    exact zero_lt_one
  · show (0 : α) < X_HAT_START
    unfold X_HAT_START
    norm_num
  · show (0 : α) ≤ P_START
    exact zero_le_one

theorem inv_adapt [FloorRing α] (log : α → α) (s : copper α) (hs : Inv s) (tag : Nat)
    (perf r : α) (s' : copper α) (h : copper_adapt log s tag perf = some (r, s')) : Inv s' := by
  by_cases hperf : perf < 0
  · unfold copper_adapt at h
    rw [if_pos hperf] at h
    simp only [Option.some.injEq, Prod.mk.injEq] at h
    rw [← h.2]
    exact hs
  · obtain ⟨xs', _, hadapt, h1, h2, _, _, huo, hp1, hp2, hz1, hmu, hepc, hgl⟩ :=
      copper_adapt_of_inv log s hs tag perf (not_lt.mp hperf)
    rw [hadapt] at h
    simp only [Option.some.injEq, Prod.mk.injEq] at h
    rw [← h.2]
    have hq : (0 : α) ≤ s.fs.q := by rw [hs.q_eq]; norm_num
    have hr : (0 : α) < s.fs.r := by rw [hs.r_eq]; norm_num
    obtain ⟨hk1, _, hk3, _, hk5, hk6, _⟩ := estimate_base_workload_inv s.fs perf s.xs.u
      hs.x_hat_pos hs.p_nonneg hq hr (not_lt.mp hperf) (le_trans zero_le_one hs.one_le_u)
    refine ⟨?_, ?_, ?_, ?_, ?_, ?_, ?_, ?_, ?_, ?_, ?_, ?_, ?_, ?_, ?_, ?_, ?_⟩ <;>
      simp only [copper_log_ctx, copper_log_xs, copper_log_fs]
    · exact hs.target_pos
    · exact hs.min_pos
    · exact hs.min_le_max
    · exact h1
    · exact h2
    · exact huo
    · rw [hp1]; exact hs.p1_eq
    · rw [hp2]; exact hs.p2_eq
    · rw [hz1]; exact hs.z1_eq
    · rw [hmu]; exact hs.mu_eq
    · rw [hepc]; exact hs.epc_eq
    · rw [hgl]; exact hs.gl_nonneg
    · rw [hgl]; exact hs.gl_lt
    · exact hk1
    · exact hk3
    · rw [hk5]; exact hs.q_eq
    · rw [hk6]; exact hs.r_eq

theorem inv_congr (s s' : copper α) (hc : s'.ctx = s.ctx) (hf : s'.fs = s.fs)
    (hx : s'.xs = s.xs) (hs : Inv s) : Inv s' := by
  obtain ⟨h1, h2, h3, h4, h5, h6, h7, h8, h9, h10, h11, h12, h13, h14, h15, h16, h17⟩ := hs
  constructor <;> simp only [hx, hc, hf] <;> assumption

theorem inv_set_performance_target (s : copper α) (hs : Inv s) (t : α) :
    Inv (copper_set_performance_target s t).2 := by
  unfold copper_set_performance_target
  split_ifs with h
  · exact hs
  · exact { hs with target_pos := not_le.mp h }

theorem inv_set_gain_limit (s : copper α) (hs : Inv s) (g : α) :
    Inv (copper_set_gain_limit s g).2 := by
  unfold copper_set_gain_limit
  split_ifs with h
  · exact hs
  · simp only [not_or, not_lt, not_le, ge_iff_le] at h
    exact { hs with gl_nonneg := h.1, gl_lt := h.2 }

theorem inv_set_logging (s : copper α) (hs : Inv s) (lb : Option (Nat → copper_log_buffer α))
    (n : Nat) (lf : Option (FILE α)) : Inv (copper_set_logging s lb n lf).2 := by
  unfold copper_set_logging
  cases lf with
  | none => exact inv_congr s _ rfl rfl rfl hs
  | some f =>
    by_cases hw : (fprintf f log_line.header).1 < 0
    · simp only [hw, if_true]
      exact hs
    · simp only [hw, if_false]
      exact inv_congr s _ rfl rfl rfl hs

theorem inv_destroy (s : copper α) (hs : Inv s) : Inv (copper_destroy s) := by
  unfold copper_destroy
  split_ifs
  · exact inv_congr s _ rfl rfl rfl hs
  · exact hs

/-- Every reachable record satisfies the invariant. -/
theorem inv_of_reachable [FloorRing α] (log : α → α) (s : copper α) (h : Reachable log s) :
    Inv s := by
  induction h with
  | init cop t pmin pmax pstart h0 => exact inv_init cop t pmin pmax pstart h0
  | adapt s tag perf r s' _ hstep ih => exact inv_adapt log s ih tag perf r s' hstep
  | set_performance_target s t _ ih => exact inv_set_performance_target s ih t
  | set_gain_limit s g _ ih => exact inv_set_gain_limit s ih g
  | set_logging s lb n lf _ ih => exact inv_set_logging s ih lb n lf
  | destroy s _ ih => exact inv_destroy s ih

theorem test_cop_init_ok : (copper_init blank 1 (1 / 100) 100 50).1 = 0 :=
  (copper_init_ok_iff blank 1 (1 / 100) 100 50).mpr
    ⟨by norm_num, by norm_num, by norm_num, by norm_num⟩

theorem test_cop_reachable : Reachable log0 test_cop :=
  Reachable.init blank 1 (1 / 100) 100 50 test_cop_init_ok

/-- The record of the unit test, field by field. -/
theorem test_cop_eq :
    test_cop =
      { ctx := { constraint_target := 1, cost_min := 1 / 100, cost_max := 100 },
        fs := { x_hat_minus := X_HAT_MINUS_START, x_hat := X_HAT_START,
                p_minus := P_MINUS_START, h := H_START, k := K_START, p := P_START,
                q := Q_DEFAULT, r := R_DEFAULT },
        xs := { u := 50 / (1 / 100), uo := 50 / (1 / 100), uoo := 50 / (1 / 100),
                e := E_START, eo := EO_START, p1 := P1_DEFAULT, p2 := P2_DEFAULT,
                z1 := Z1_DEFAULT, mu := MU_DEFAULT, epc := EPC_DEFAULT,
                gl := GAIN_LIMIT_DEFAULT },
        ls := { id := 0, lb_length := 0, lb := none, lf := none } } := by
  have hc : ¬ ((1 : ℚ) ≤ 0 ∨ (1 / 100 : ℚ) ≤ 0 ∨ (100 : ℚ) < 1 / 100 ∨ (50 : ℚ) < 1 / 100 ∨
      (50 : ℚ) > 100) := by norm_num
  unfold test_cop copper_init
  rw [if_neg hc]

theorem test_cop_ls : test_cop.ls = { id := 0, lb_length := 0, lb := none, lf := none } := by
  rw [test_cop_eq]

theorem copper_adapt_invalid [FloorRing α] (log : α → α) (s : copper α) (tag : Nat) (perf : α)
    (h : perf < 0) : copper_adapt log s tag perf = some (-(EINVAL : α), s) := by
  unfold copper_adapt
  rw [if_pos h]

/-! ### Flushing -/

theorem flush_loop_fault (lb : Nat → copper_log_buffer α) (n : Nat) :
    ∀ (i : Nat) (f : FILE α), (flush_loop lb i n f).fault = f.fault := by
  induction n with
  | zero => intro i f; rfl
  | succ n ih =>
    intro i f
    rw [flush_loop, ih]
    unfold fprintf
    cases hfa : f.fault with
    | none => rfl
    | some e => exact hfa

theorem flush_loop_faulty (lb : Nat → copper_log_buffer α) (n : Nat) :
    ∀ (i : Nat) (f : FILE α), f.fault ≠ none → flush_loop lb i n f = f := by
  induction n with
  | zero => intro i f _; rfl
  | succ n ih =>
    intro i f hf
    have hw : (fprintf f (log_line.row (row_of (lb i)))).2 = f := by
      unfold fprintf
      cases hfa : f.fault with
      | none => exact absurd hfa hf
      | some e => rfl
    rw [flush_loop, hw]
    exact ih (i + 1) f hf

theorem flush_loop_out (lb : Nat → copper_log_buffer α) (n : Nat) :
    ∀ (i : Nat) (f : FILE α), f.fault = none →
      flush_loop lb i n f = { f with out := f.out ++ flush_rows lb i n } := by
  induction n with
  | zero =>
    intro i f _
    simp [flush_loop, flush_rows]
  | succ n ih =>
    intro i f hf
    have hw : (fprintf f (log_line.row (row_of (lb i)))).2 =
        { f with out := f.out ++ [log_line.row (row_of (lb i))] } := by
      unfold fprintf
      rw [hf]
    rw [flush_loop, hw]
    rw [ih (i + 1) { f with out := f.out ++ [log_line.row (row_of (lb i))] } hf]
    simp [flush_rows, List.range'_succ]

theorem flush_rows_succ (lb : Nat → copper_log_buffer α) (i n : Nat) :
    flush_rows lb i (n + 1) = flush_rows lb i n ++ [log_line.row (row_of (lb (i + n)))] := by
  simp [flush_rows, List.range'_concat]

theorem flush_rows_congr (lb lb' : Nat → copper_log_buffer α) (i n : Nat)
    (h : ∀ j, i ≤ j → j < i + n → lb j = lb' j) : flush_rows lb i n = flush_rows lb' i n := by
  unfold flush_rows
  apply List.map_congr_left
  intro j hj
  rw [List.mem_range'_1] at hj
  rw [h j hj.1 hj.2]

theorem flush_rows_length (lb : Nat → copper_log_buffer α) (i n : Nat) :
    (flush_rows lb i n).length = n := by
  simp [flush_rows]

/-! ### The two branches of `copper_log` -/

theorem copper_log_disabled (c : copper α) (tag : Nat) (a w cost : α)
    (h : c.ls.lb = none ∨ c.ls.lb_length = 0) : copper_log c tag a w cost = c := by
  unfold copper_log
  rcases h with h | h
  · rw [h]
  · cases c.ls.lb with
    | none => rfl
    | some lb =>
      simp only []
      rw [if_neg (by omega)]

theorem copper_log_enabled (c : copper α) (tag : Nat) (a w cost : α)
    (lb : Nat → copper_log_buffer α) (hlb : c.ls.lb = some lb) (hN : 0 < c.ls.lb_length) :
    copper_log c tag a w cost =
      { c with ls := { c.ls with
          lb := some (Function.update lb (c.ls.id % c.ls.lb_length)
            { id := c.ls.id, user_tag := tag % UINT32_MOD, constraint_achieved := a,
              fs := c.fs, workload := w, u := c.xs.u, e := c.xs.e, cu := cost }),
          lf := if c.ls.id % c.ls.lb_length = c.ls.lb_length - 1
                then flush_log_file c.ls.lf
                  (some (Function.update lb (c.ls.id % c.ls.lb_length)
                    { id := c.ls.id, user_tag := tag % UINT32_MOD, constraint_achieved := a,
                      fs := c.fs, workload := w, u := c.xs.u, e := c.xs.e, cu := cost }))
                  c.ls.lb_length
                else c.ls.lf,
          id := (c.ls.id + 1) % UINT64_MOD } } := by
  unfold copper_log
  rw [hlb]
  simp only []
  rw [if_pos hN]

theorem same_up_to_tag_refl (slot : Nat) (a : copper α) : same_up_to_tag slot a a :=
  ⟨rfl, rfl, rfl, rfl, rfl, rfl, rfl, fun _ => rfl⟩

/-- Flushing two buffers that differ in the user tag of their last slot only gives streams
that differ at most in the user-tag column of the last line. -/
theorem flush_sink_view (lb : Nat → copper_log_buffer α) (m : Nat)
    (e1 e2 : copper_log_buffer α) (he : { e1 with user_tag := 0 } = { e2 with user_tag := 0 })
    (lf : Option (FILE α)) :
    (flush_log_file lf (some (Function.update lb m e1)) (m + 1)).map sink_view =
      (flush_log_file lf (some (Function.update lb m e2)) (m + 1)).map sink_view := by
  cases lf with
  | none => rfl
  | some f =>
    simp only [flush_log_file, Option.map_some', Option.some.injEq]
    cases hf : f.fault with
    | some err =>
      have hne : f.fault ≠ none := by rw [hf]; exact Option.some_ne_none err
      rw [flush_loop_faulty _ _ _ _ hne, flush_loop_faulty _ _ _ _ hne]
    | none =>
      rw [flush_loop_out _ _ _ _ hf, flush_loop_out _ _ _ _ hf]
      have hrows : flush_rows (Function.update lb m e1) 0 m =
          flush_rows (Function.update lb m e2) 0 m := by
        apply flush_rows_congr
        intro j _ hj
        have hjm : j ≠ m := by omega
        rw [Function.update_noteq hjm, Function.update_noteq hjm]
      have hrow : line_forget_tag (log_line.row (row_of e1)) =
          line_forget_tag (log_line.row (row_of e2)) := by
        have h1 := congrArg copper_log_buffer.id he
        have h2 := congrArg copper_log_buffer.constraint_achieved he
        have h3 := congrArg copper_log_buffer.fs he
        have h4 := congrArg copper_log_buffer.workload he
        have h5 := congrArg copper_log_buffer.u he
        have h6 := congrArg copper_log_buffer.e he
        have h7 := congrArg copper_log_buffer.cu he
        simp only at h1 h2 h3 h4 h5 h6 h7
        simp only [line_forget_tag, row_of, h1, h2, h3, h4, h5, h6, h7]
      unfold sink_view
      rw [flush_rows_succ, flush_rows_succ, Nat.zero_add, Function.update_same,
        Function.update_same, hrows]
      simp only [← List.append_assoc, List.dropLast_concat, List.getLast?_concat,
        Option.map_some', hrow]

theorem copper_log_same_up_to_tag (c : copper α) (t1 t2 : Nat) (a w cost : α) :
    same_up_to_tag (c.ls.id % c.ls.lb_length)
      (copper_log c t1 a w cost) (copper_log c t2 a w cost) := by
  by_cases hdis : c.ls.lb = none ∨ c.ls.lb_length = 0
  · rw [copper_log_disabled c t1 a w cost hdis, copper_log_disabled c t2 a w cost hdis]
    exact same_up_to_tag_refl _ c
  · simp only [not_or] at hdis
    obtain ⟨lb, hlb⟩ := Option.ne_none_iff_exists'.mp hdis.1
    have hN : 0 < c.ls.lb_length := Nat.pos_of_ne_zero hdis.2
    rw [copper_log_enabled c t1 a w cost lb hlb hN, copper_log_enabled c t2 a w cost lb hlb hN]
    refine ⟨rfl, rfl, rfl, rfl, rfl, ?_, ?_, ?_⟩
    · simp only [Option.map_some', forget_tag_at, Function.update_same, Function.update_idem]
    · simp only []
      by_cases hfl : c.ls.id % c.ls.lb_length = c.ls.lb_length - 1
      · rw [if_pos hfl, if_pos hfl, hfl]
        have hm : c.ls.lb_length = (c.ls.lb_length - 1) + 1 := by omega
        rw [hm]
        simp only [Nat.add_sub_cancel]
        apply flush_sink_view
        rfl
      · rw [if_neg hfl, if_neg hfl]
    · intro hfl
      simp only []
      simp only [] at hfl
      rw [if_neg hfl, if_neg hfl]

/-! ### Arithmetic of the circular buffer -/

theorem mod_ne_of_lt_window (N m n : Nat) (h1 : m < n) (h2 : n < m + N) : m % N ≠ n % N := by
  intro h
  have hd : N ∣ n - m := (Nat.modEq_iff_dvd' (le_of_lt h1)).mp h
  have hlt : n - m < N := by omega
  have h0 : n - m = 0 := Nat.eq_zero_of_dvd_of_lt hd hlt
  omega

theorem succ_mod_of_last (N n : Nat) (hN : 0 < N) (h : n % N = N - 1) : (n + 1) % N = 0 := by
  rw [Nat.add_mod, h]
  rcases Nat.eq_or_lt_of_le (Nat.succ_le_of_lt hN) with h1 | h1
  · rw [← h1]
  · rw [Nat.mod_eq_of_lt h1]
    have : N - 1 + 1 = N := by omega
    rw [this, Nat.mod_self]

theorem succ_mod_of_not_last (N n : Nat) (hN : 0 < N) (h : n % N ≠ N - 1) :
    (n + 1) % N = n % N + 1 := by
  have hlt : n % N < N := Nat.mod_lt n hN
  have h1 : n % N + 1 < N := by omega
  have h2 : (n + 1) % N = (n % N + 1) % N := by
    rw [Nat.add_mod]
    by_cases hN1 : N = 1
    · subst hN1
      omega
    · have : 1 % N = 1 := Nat.mod_eq_of_lt (by omega)
      rw [this]
  rw [h2, Nat.mod_eq_of_lt h1]

theorem flush_rows_getElem? (lb : Nat → copper_log_buffer α) (c j : Nat) :
    (flush_rows lb 0 c)[j]? = if j < c then some (line_of (lb j)) else none := by
  unfold flush_rows
  rw [List.getElem?_map]
  by_cases h : j < c
  · rw [if_pos h, List.getElem?_range' 0 1 h]
    simp [line_of]
  · rw [if_neg h, List.getElem?_eq_none (by simpa using h)]
    rfl

/-- The rows of the first `c` slots are the rows of the last `c` entries when each of these
slots holds the entry of its index. -/
theorem flush_rows_eq_drop (lb : Nat → copper_log_buffer α) (E : List (copper_log_buffer α))
    (a c : Nat) (hlen : E.length = a + c) (h : ∀ j, j < c → E[a + j]? = some (lb j)) :
    flush_rows lb 0 c = (E.drop a).map line_of := by
  apply List.ext_getElem?
  intro j
  rw [flush_rows_getElem?, List.getElem?_map, List.getElem?_drop]
  split_ifs with hj
  · rw [h j hj]
    rfl
  · have : E[a + j]? = none := by
      apply List.getElem?_eq_none
      omega
    rw [this]
    rfl

/-! ### One logged step preserves the log invariant -/

theorem window_step (N : Nat) (E : List (copper_log_buffer α))
    (buf : Nat → copper_log_buffer α) (e : copper_log_buffer α)
    (hw : ∀ m, m < E.length → E.length ≤ m + N → E[m]? = some (buf (m % N))) :
    ∀ m, m < (E ++ [e]).length → (E ++ [e]).length ≤ m + N →
      (E ++ [e])[m]? = some (Function.update buf (E.length % N) e (m % N)) := by
  intro m hm hmN
  rw [List.length_append, List.length_singleton] at hm hmN
  by_cases hlast : m = E.length
  · subst hlast
    rw [Function.update_same, List.getElem?_append_right (le_refl _), Nat.sub_self]
    rfl
  · have hlt : m < E.length := by omega
    have hne : m % N ≠ E.length % N := mod_ne_of_lt_window N m E.length hlt (by omega)
    rw [Function.update_noteq hne, List.getElem?_append_left hlt]
    exact hw m hlt (by omega)

theorem out_step (N : Nat) (hN : 0 < N) (o : List (log_line α))
    (E : List (copper_log_buffer α)) (buf' : Nat → copper_log_buffer α)
    (e : copper_log_buffer α) (out : List (log_line α))
    (hout : out = o ++ (E.take (E.length - E.length % N)).map line_of)
    (hw : ∀ m, m < (E ++ [e]).length → (E ++ [e]).length ≤ m + N →
      (E ++ [e])[m]? = some (buf' (m % N))) :
    (if E.length % N = N - 1 then out ++ flush_rows buf' 0 N else out) =
      o ++ ((E ++ [e]).take ((E ++ [e]).length - (E ++ [e]).length % N)).map line_of := by
  have hlen : (E ++ [e]).length = E.length + 1 := by
    rw [List.length_append, List.length_singleton]
  have hmodlt : E.length % N < N := Nat.mod_lt _ hN
  have hmodle : E.length % N ≤ E.length := Nat.mod_le _ _
  by_cases hfl : E.length % N = N - 1
  · rw [if_pos hfl]
    have h0 : (E.length + 1) % N = 0 := succ_mod_of_last N E.length hN hfl
    have hdvd : N ∣ E.length + 1 - N := by
      have h1 : N ∣ E.length + 1 := Nat.dvd_of_mod_eq_zero h0
      exact Nat.dvd_sub' h1 (dvd_refl N)
    have hrows : flush_rows buf' 0 N = ((E ++ [e]).drop (E.length + 1 - N)).map line_of := by
      apply flush_rows_eq_drop buf' (E ++ [e]) (E.length + 1 - N) N
      · rw [hlen]; omega
      · intro j hj
        have hm := hw (E.length + 1 - N + j) (by rw [hlen]; omega) (by rw [hlen]; omega)
        rw [hm]
        congr 2
        rw [Nat.add_mod, Nat.mod_eq_zero_of_dvd hdvd, Nat.zero_add, Nat.mod_mod,
          Nat.mod_eq_of_lt hj]
    have htake : E.take (E.length - E.length % N) = (E ++ [e]).take (E.length + 1 - N) := by
      have ha : E.length - E.length % N = E.length + 1 - N := by omega
      rw [ha, List.take_append_of_le_length (by omega)]
    rw [hout, hrows, htake, hlen, h0, Nat.sub_zero, List.append_assoc, ← List.map_append,
      List.take_append_drop]
    have hall : (E ++ [e]).take (E.length + 1) = E ++ [e] := by
      apply List.take_of_length_le
      rw [hlen]
    rw [hall]
  · rw [if_neg hfl]
    have h1 : (E.length + 1) % N = E.length % N + 1 := succ_mod_of_not_last N E.length hN hfl
    have ha : E.length + 1 - (E.length % N + 1) = E.length - E.length % N := by omega
    rw [hout, hlen, h1, ha, List.take_append_of_le_length (by omega)]

/-- On a record with logging enabled to a working stream, a valid `copper_adapt` stores its
entry in slot `id % N`, flushes the whole buffer when that slot is the last one, and keeps
the log invariant (as long as the sequence id has not wrapped). -/
theorem adapt_step_log [FloorRing α] (log : α → α) (N : Nat) (o : List (log_line α))
    (E : List (copper_log_buffer α)) (s : copper α) (buf : Nat → copper_log_buffer α)
    (f : FILE α) (hinv : Inv s) (hL : LogInv N o E s buf f) (hN : 0 < N)
    (hlen : E.length < UINT64_MOD) (tag : Nat) (perf : α) (hperf : 0 ≤ perf) :
    ∃ (cap : α) (s' : copper α),
      copper_adapt log s tag perf = some (cap, s') ∧ Inv s' ∧
      (entry_of s tag perf cap s').id = E.length ∧
      LogInv N o (E ++ [entry_of s tag perf cap s']) s'
        (Function.update buf (E.length % N) (entry_of s tag perf cap s'))
        (if E.length % N = N - 1 then
          { f with out := f.out ++
              flush_rows (Function.update buf (E.length % N) (entry_of s tag perf cap s')) 0 N }
         else f) := by
  obtain ⟨xs', _, hadapt, _⟩ := copper_adapt_of_inv log s hinv tag perf hperf
  have hid : s.ls.id = E.length := by
    rw [hL.id_eq, Nat.mod_eq_of_lt hlen]
  refine ⟨_, _, hadapt, inv_adapt log s hinv tag perf _ _ hadapt, hid, ?_⟩
  have hentry : entry_of s tag perf (xs'.u * s.ctx.cost_min)
      (copper_log { s with fs := (estimate_base_workload s.fs perf s.xs.u).2, xs := xs' }
        tag perf (estimate_base_workload s.fs perf s.xs.u).1 (xs'.u * s.ctx.cost_min)) =
      { id := s.ls.id, user_tag := tag % UINT32_MOD, constraint_achieved := perf,
        fs := (estimate_base_workload s.fs perf s.xs.u).2,
        workload := (estimate_base_workload s.fs perf s.xs.u).1, u := xs'.u, e := xs'.e,
        cu := xs'.u * s.ctx.cost_min } := by
    unfold entry_of
    rw [copper_log_fs, copper_log_xs]
  rw [hentry]
  have hpos : 0 < s.ls.lb_length := by rw [hL.len]; exact hN
  rw [copper_log_enabled { s with fs := (estimate_base_workload s.fs perf s.xs.u).2, xs := xs' }
    tag perf _ _ buf hL.lb_eq hpos]
  simp only []
  have hwin := window_step N E buf
    { id := s.ls.id, user_tag := tag % UINT32_MOD, constraint_achieved := perf,
      fs := (estimate_base_workload s.fs perf s.xs.u).2,
      workload := (estimate_base_workload s.fs perf s.xs.u).1, u := xs'.u, e := xs'.e,
      cu := xs'.u * s.ctx.cost_min } hL.window
  constructor
  · exact hL.len
  · show (s.ls.id + 1) % UINT64_MOD = _
    rw [hid, List.length_append, List.length_singleton]
  · show some _ = some _
    rw [hid, hL.len]
  · show (if s.ls.id % s.ls.lb_length = s.ls.lb_length - 1 then _ else _) = some _
    rw [hid, hL.len, hL.lf_eq]
    by_cases hfl : E.length % N = N - 1
    · rw [if_pos hfl, if_pos hfl]
      show some (flush_loop _ 0 N f) = _
      rw [flush_loop_out _ _ _ _ hL.ok]
    · rw [if_neg hfl, if_neg hfl]
  · split_ifs
    · exact hL.ok
    · exact hL.ok
  · have h := out_step N hN o E _ _ f.out hL.out_eq hwin
    rw [← h]
    split_ifs <;> rfl
  · exact hwin
  · rw [List.map_append, hL.ids, List.length_append, List.length_singleton, List.range_succ]
    simp only [List.map_cons, List.map_nil, hid]

theorem last_slot_iff_dvd (N n : Nat) (hN : 0 < N) : n % N = N - 1 ↔ N ∣ n + 1 := by
  constructor
  · intro h
    exact Nat.dvd_of_mod_eq_zero (succ_mod_of_last N n hN h)
  · intro h
    by_contra hne
    have h1 := succ_mod_of_not_last N n hN hne
    have h0 := Nat.mod_eq_zero_of_dvd h
    omega

theorem drop_range_eq (a k : Nat) (h : a ≤ k) :
    (List.range k).drop a = List.range' a (k - a) := by
  have h1 : List.range k = List.range' 0 a ++ List.range' a (k - a) := by
    rw [List.range_eq_range']
    have h2 := @List.range'_append 0 a (k - a) 1
    simp only [Nat.zero_add, Nat.one_mul] at h2
    rw [h2]
    congr 1
    omega
  rw [h1, List.drop_left' (by simp)]

theorem line_id_line_of (b : copper_log_buffer α) : line_id (line_of b) = some b.id := rfl

/-- The sequence ids of the rows of a flush after `E.length` logged steps. -/
theorem flush_rows_ids (N : Nat) (E : List (copper_log_buffer α))
    (buf : Nat → copper_log_buffer α) (hN : N ≤ E.length)
    (hdvd : N ∣ E.length)
    (hw : ∀ m, m < E.length → E.length ≤ m + N → E[m]? = some (buf (m % N)))
    (hids : E.map (fun e => e.id) = List.range E.length) :
    flush_rows buf 0 N = (E.drop (E.length - N)).map line_of ∧
    (flush_rows buf 0 N).map line_id = (List.range' (E.length - N) N).map some := by
  have hd : N ∣ E.length - N := Nat.dvd_sub' hdvd (dvd_refl N)
  have hrows : flush_rows buf 0 N = (E.drop (E.length - N)).map line_of := by
    apply flush_rows_eq_drop buf E (E.length - N) N (by omega)
    intro j hj
    rw [hw (E.length - N + j) (by omega) (by omega)]
    congr 2
    rw [Nat.add_mod, Nat.mod_eq_zero_of_dvd hd, Nat.zero_add, Nat.mod_mod, Nat.mod_eq_of_lt hj]
  refine ⟨hrows, ?_⟩
  have hcomp : ∀ l : List (copper_log_buffer α),
      (l.map line_of).map line_id = (l.map fun e => e.id).map some := by
    intro l
    rw [List.map_map, List.map_map]
    rfl
  rw [hrows, hcomp, List.map_drop, hids, drop_range_eq _ _ (Nat.sub_le _ _)]
  have hsub : E.length - (E.length - N) = N := by omega
  rw [hsub]

/-- The record right after a successful `copper_set_logging` with a buffer and a working
stream satisfies the log invariant with no entry recorded. -/
theorem log_inv_configured (c : copper α) (buf0 : Nat → copper_log_buffer α) (N : Nat)
    (f0 : FILE α) (hf0 : f0.fault = none) :
    (copper_set_logging c (some buf0) N (some f0)).1 = 0 ∧
    LogInv N (f0.out ++ [log_line.header]) []
      (copper_set_logging c (some buf0) N (some f0)).2 buf0
      { f0 with out := f0.out ++ [log_line.header] } := by
  have hw : fprintf f0 log_line.header =
      (1, { f0 with out := f0.out ++ [log_line.header] }) := by
    unfold fprintf
    rw [hf0]
  unfold copper_set_logging
  simp only [hw]
  rw [if_neg (by decide)]
  refine ⟨rfl, ⟨rfl, rfl, rfl, rfl, hf0, ?_, ?_, rfl⟩⟩
  · simp
  · intro m hm
    exact absurd hm (Nat.not_lt_zero m)

/-- A run of valid steps on a record with logging enabled never aborts and keeps the log
invariant, as long as the sequence id does not wrap. -/
theorem adapt_all_log [FloorRing α] (log : α → α) (N : Nat) (hN : 0 < N)
    (o : List (log_line α)) (inputs : List (Nat × α)) :
    (∀ x ∈ inputs, 0 ≤ x.2) →
    ∀ (E : List (copper_log_buffer α)) (s : copper α) (buf : Nat → copper_log_buffer α)
      (f : FILE α), Inv s → LogInv N o E s buf f → E.length + inputs.length ≤ UINT64_MOD →
      ∃ (s' : copper α) (buf' : Nat → copper_log_buffer α) (f' : FILE α),
        adapt_all log s inputs = some s' ∧ Inv s' ∧
        LogInv N o (E ++ run_entries log s inputs) s' buf' f' ∧
        (run_entries log s inputs).length = inputs.length := by
  induction inputs with
  | nil =>
    intro _ E s buf f hinv hL _
    refine ⟨s, buf, f, rfl, hinv, ?_, rfl⟩
    simp only [run_entries, List.append_nil]
    exact hL
  | cons x rest ih =>
    intro hvalid E s buf f hinv hL hlen
    rw [List.length_cons] at hlen
    obtain ⟨cap, s1, hstep, hinv1, _, hL1⟩ :=
      adapt_step_log log N o E s buf f hinv hL hN (by omega) x.1 x.2
        (hvalid x (List.mem_cons_self x rest))
    obtain ⟨s', buf', f', hrun, hinv', hL', hlen'⟩ :=
      ih (fun y hy => hvalid y (List.mem_cons_of_mem x hy)) _ s1 _ _ hinv1 hL1
        (by rw [List.length_append, List.length_singleton]; omega)
    refine ⟨s', buf', f', ?_, hinv', ?_, ?_⟩
    · simp only [adapt_all, hstep]
      exact hrun
    · simp only [run_entries, hstep]
      rw [List.append_assoc] at hL'
      exact hL'
    · simp only [run_entries, hstep, List.length_cons, hlen']

/-- What a valid `copper_adapt` does to the log of a record with logging enabled. -/
theorem copper_adapt_logs [FloorRing α] (log : α → α) (s : copper α) (hinv : Inv s)
    (buf : Nat → copper_log_buffer α) (hlb : s.ls.lb = some buf) (hN : 0 < s.ls.lb_length)
    (tag : Nat) (perf : α) (hperf : 0 ≤ perf) :
    ∃ (cap : α) (s' : copper α),
      copper_adapt log s tag perf = some (cap, s') ∧
      (entry_of s tag perf cap s').id = s.ls.id ∧
      s'.ls.lb = some (Function.update buf (s.ls.id % s.ls.lb_length)
        (entry_of s tag perf cap s')) ∧
      s'.ls.id = (s.ls.id + 1) % UINT64_MOD ∧
      s'.ls.lb_length = s.ls.lb_length ∧
      s'.ls.lf = (if s.ls.id % s.ls.lb_length = s.ls.lb_length - 1 then
        flush_log_file s.ls.lf (some (Function.update buf (s.ls.id % s.ls.lb_length)
          (entry_of s tag perf cap s'))) s.ls.lb_length else s.ls.lf) := by
  obtain ⟨xs', _, hadapt, _⟩ := copper_adapt_of_inv log s hinv tag perf hperf
  refine ⟨_, _, hadapt, rfl, ?_⟩
  have hentry : entry_of s tag perf (xs'.u * s.ctx.cost_min)
      (copper_log { s with fs := (estimate_base_workload s.fs perf s.xs.u).2, xs := xs' }
        tag perf (estimate_base_workload s.fs perf s.xs.u).1 (xs'.u * s.ctx.cost_min)) =
      { id := s.ls.id, user_tag := tag % UINT32_MOD, constraint_achieved := perf,
        fs := (estimate_base_workload s.fs perf s.xs.u).2,
        workload := (estimate_base_workload s.fs perf s.xs.u).1, u := xs'.u, e := xs'.e,
        cu := xs'.u * s.ctx.cost_min } := by
    unfold entry_of
    rw [copper_log_fs, copper_log_xs]
  rw [hentry]
  rw [copper_log_enabled { s with fs := (estimate_base_workload s.fs perf s.xs.u).2, xs := xs' }
    tag perf _ _ buf hlb hN]
  exact ⟨rfl, rfl, rfl, rfl⟩

theorem wrap_inputs_valid : ∀ x ∈ wrap_inputs, (0 : ℚ) ≤ x.2 := by
  intro x hx
  rw [List.eq_of_mem_replicate hx]
  exact zero_le_one

theorem wrap_inputs_length : wrap_inputs.length = UINT64_MOD := List.length_replicate _ _

/-- The record of the unit test, with logging configured with capacity 3, after as many
valid steps as the sequence id has values: the sequence id is 0 again. -/
theorem state_after_wrap :
    ∃ (s1 : copper ℚ) (E : List (copper_log_buffer ℚ)) (buf1 : Nat → copper_log_buffer ℚ)
      (f1 : FILE ℚ),
      adapt_all log0 (copper_set_logging test_cop (some blank_buf) 3 (some empty_file)).2
        wrap_inputs = some s1 ∧
      Inv s1 ∧ E.length = UINT64_MOD ∧
      LogInv 3 (empty_file.out ++ [log_line.header]) E s1 buf1 f1 := by
  have hcfg := (log_inv_configured test_cop blank_buf 3 empty_file rfl).2
  have hinv0 : Inv (copper_set_logging test_cop (some blank_buf) 3 (some empty_file)).2 :=
    inv_set_logging test_cop (inv_of_reachable log0 test_cop test_cop_reachable) _ _ _
  obtain ⟨s1, buf1, f1, hrun, hinv1, hL1, hlen⟩ :=
    adapt_all_log log0 3 (by decide) _ wrap_inputs wrap_inputs_valid [] _ _ _ hinv0 hcfg
      (by rw [wrap_inputs_length]; exact le_of_eq (Nat.zero_add _))
  refine ⟨s1, _, buf1, f1, hrun, hinv1, ?_, hL1⟩
  rw [List.length_append, hlen, wrap_inputs_length]
  exact Nat.zero_add _

/-! ### `copper_destroy` -/

theorem copper_destroy_record (s : copper α) :
    (copper_destroy s).ctx = s.ctx ∧ (copper_destroy s).fs = s.fs ∧
    (copper_destroy s).xs = s.xs ∧ (copper_destroy s).ls.id = s.ls.id ∧
    (copper_destroy s).ls.lb_length = s.ls.lb_length ∧ (copper_destroy s).ls.lb = s.ls.lb := by
  unfold copper_destroy
  split_ifs
  · exact ⟨rfl, rfl, rfl, rfl, rfl, rfl⟩
  · exact ⟨rfl, rfl, rfl, rfl, rfl, rfl⟩

theorem file_append_nil (f : FILE α) : ({ f with out := f.out ++ [] } : FILE α) = f := by
  cases f
  simp

/-- A call of `copper_destroy` appends `destroy_rows` to the log file. -/
theorem copper_destroy_lf (s : copper α) :
    (copper_destroy s).ls.lf =
      s.ls.lf.map fun f => { f with out := f.out ++ destroy_rows s f } := by
  unfold copper_destroy destroy_rows
  by_cases hN : 0 < s.ls.lb_length
  · rw [if_pos hN]
    simp only [if_pos hN]
    cases hlf : s.ls.lf with
    | none =>
      cases hlb : s.ls.lb <;> rfl
    | some f =>
      cases hlb : s.ls.lb with
      | none =>
        simp only [flush_log_file, Option.map_some', file_append_nil]
      | some buf =>
        simp only [flush_log_file, Option.map_some', Option.some.injEq]
        cases hf : f.fault with
        | none =>
          rw [flush_loop_out _ _ _ _ hf, hf]
        | some e =>
          have hne : f.fault ≠ none := by rw [hf]; exact Option.some_ne_none e
          rw [flush_loop_faulty _ _ _ _ hne]
          simp only []
          rw [← hf]
          exact (file_append_nil f).symm
  · rw [if_neg hN]
    simp only [if_neg hN, file_append_nil]
    cases s.ls.lf <;> rfl

theorem destroy_rows_congr (s s' : copper α) (f f' : FILE α) (h1 : s'.ls.id = s.ls.id)
    (h2 : s'.ls.lb_length = s.ls.lb_length) (h3 : s'.ls.lb = s.ls.lb)
    (h4 : f'.fault = f.fault) : destroy_rows s' f' = destroy_rows s f := by
  unfold destroy_rows
  rw [h1, h2, h3, h4]

theorem file_with_out_eq_iff (f : FILE α) (a b : List (log_line α)) :
    ({ f with out := a } : FILE α) = { f with out := b } ↔ a = b := by
  constructor
  · intro h
    exact congrArg FILE.out h
  · intro h
    rw [h]

theorem file_append_eq_self_iff (f : FILE α) (r : List (log_line α)) :
    ({ f with out := f.out ++ r } : FILE α) = f ↔ r = [] := by
  constructor
  · intro h
    have h1 := congrArg FILE.out h
    simp only [List.append_right_eq_self] at h1
    exact h1
  · intro h
    rw [h]
    exact file_append_nil f

/-- A second call of `copper_destroy` appends the rows of the first call once more. -/
theorem copper_destroy_twice_lf (s : copper α) :
    (copper_destroy (copper_destroy s)).ls.lf =
      s.ls.lf.map fun f =>
        { f with out := f.out ++ destroy_rows s f ++ destroy_rows s f } := by
  obtain ⟨_, _, _, h1, h2, h3⟩ := copper_destroy_record s
  rw [copper_destroy_lf (copper_destroy s), copper_destroy_lf s]
  cases s.ls.lf with
  | none => rfl
  | some f =>
    simp only [Option.map_some']
    rw [destroy_rows_congr s (copper_destroy s) f
      { f with out := f.out ++ destroy_rows s f } h1 h2 h3 rfl]

/-! ### `calculate_xup` in terms of its named expressions -/

theorem calculate_xup_eq [FloorRing α] (log : α → α) (xs : copper_xup_state α)
    (target achieved w : α) (id : Nat) (umax : α) :
    calculate_xup log xs target achieved w id umax =
      (get_confidence_zone log xs.p1 xs.epc).map fun cz =>
        { xs with e := target - achieved,
                  u := xup_new_u xs target achieved w umax ((id : α) > ((⌈cz⌉ : ℤ) : α)),
                  uoo := xs.uo,
                  uo := xup_new_u xs target achieved w umax ((id : α) > ((⌈cz⌉ : ℤ) : α)),
                  eo := target - achieved } := by
  unfold calculate_xup
  simp only []
  cases get_confidence_zone log xs.p1 xs.epc <;> rfl

theorem clamp_of_mem (v lo hi : α) (h1 : lo ≤ v) (h2 : v ≤ hi) : clamp v lo hi = v := by
  unfold clamp
  rw [if_neg (not_lt.mpr h1), if_neg (not_lt.mpr h2)]

/-! ### Logging disabled -/

/-- With capacity 0 (or without a buffer) `copper_adapt` does not touch the log state. -/
theorem copper_adapt_ls_disabled [FloorRing α] (log : α → α) (s : copper α)
    (hdis : s.ls.lb = none ∨ s.ls.lb_length = 0) (tag : Nat) (perf r : α) (s' : copper α)
    (h : copper_adapt log s tag perf = some (r, s')) : s'.ls = s.ls := by
  unfold copper_adapt at h
  by_cases hperf : perf < 0
  · rw [if_pos hperf] at h
    simp only [Option.some.injEq, Prod.mk.injEq] at h
    rw [← h.2]
  · rw [if_neg hperf] at h
    simp only [] at h
    cases hc : calculate_xup log s.xs s.ctx.constraint_target perf
        (estimate_base_workload s.fs perf s.xs.u).1 s.ls.id (s.ctx.cost_max / s.ctx.cost_min) with
    | none =>
      rw [hc] at h
      exact absurd h (by simp)
    | some xs =>
      rw [hc] at h
      simp only [] at h
      split_ifs at h
      simp only [Option.some.injEq, Prod.mk.injEq] at h
      rw [← h.2]
      rw [copper_log_disabled
        { s with fs := (estimate_base_workload s.fs perf s.xs.u).2, xs := xs } _ _ _ _ hdis]

theorem copper_destroy_disabled (s : copper α) (h0 : s.ls.lb_length = 0) :
    copper_destroy s = s := by
  unfold copper_destroy
  rw [if_neg (by omega)]

/-! ### The cap is `u * cost_min` -/

theorem init_cap (cop : copper α) (t pmin pmax pstart : α)
    (h : (copper_init cop t pmin pmax pstart).1 = 0) :
    (copper_init cop t pmin pmax pstart).2.xs.u * (copper_init cop t pmin pmax pstart).2.ctx.cost_min
      = pstart := by
  obtain ⟨h1, h2, h3, h4⟩ := (copper_init_ok_iff cop t pmin pmax pstart).mp h
  have hc : ¬ (t ≤ 0 ∨ pmin ≤ 0 ∨ pmax < pmin ∨ pstart < pmin ∨ pstart > pmax) := by
    simp only [not_or, not_le, not_lt]
    exact ⟨h1, h2, le_trans h3 h4, h3, h4⟩
  unfold copper_init
  rw [if_neg hc]
  show pstart / pmin * pmin = pstart
  exact div_mul_cancel₀ pstart (ne_of_gt h2)

theorem adapt_cap_eq [FloorRing α] (log : α → α) (s0 : copper α) (hs : Inv s0) (tag : Nat)
    (perf cap : α) (s : copper α) (hperf : 0 ≤ perf)
    (h : copper_adapt log s0 tag perf = some (cap, s)) :
    cap = s.xs.u * s.ctx.cost_min := by
  obtain ⟨xs', _, hadapt, _⟩ := copper_adapt_of_inv log s0 hs tag perf hperf
  rw [hadapt] at h
  simp only [Option.some.injEq, Prod.mk.injEq] at h
  rw [← h.1, ← h.2, copper_log_xs, copper_log_ctx]

/-- The covariance update of the Kalman filter, for a control value `h` of any sign. -/
theorem estimate_base_workload_p (fs : copper_filter_state α) (perf h : α) (hp : 0 ≤ fs.p)
    (hq : 0 ≤ fs.q) (hr : 0 < fs.r) :
    (estimate_base_workload fs perf h).2.p_minus = fs.p + fs.q ∧
    (estimate_base_workload fs perf h).2.p =
      (fs.p + fs.q) * fs.r / (h ^ 2 * (fs.p + fs.q) + fs.r) ∧
    0 ≤ (estimate_base_workload fs perf h).2.p ∧
    (estimate_base_workload fs perf h).2.p ≤ fs.p + fs.q := by
  have hpm : 0 ≤ fs.p + fs.q := add_nonneg hp hq
  have hsq : h * (fs.p + fs.q) * h = h ^ 2 * (fs.p + fs.q) := by ring
  have hden2 : 0 < h ^ 2 * (fs.p + fs.q) + fs.r := by positivity
  have hpeq : (1 - (((fs.p + fs.q) * h) / ((h * (fs.p + fs.q) * h) + fs.r) * h)) *
      (fs.p + fs.q) = (fs.p + fs.q) * fs.r / (h ^ 2 * (fs.p + fs.q) + fs.r) := by
    rw [hsq]
    field_simp
    ring
  have hple : (fs.p + fs.q) * fs.r / (h ^ 2 * (fs.p + fs.q) + fs.r) ≤ fs.p + fs.q := by
    rw [div_le_iff₀ hden2]
    nlinarith [mul_nonneg hpm (sq_nonneg h)]
  unfold estimate_base_workload
  refine ⟨rfl, hpeq, ?_, ?_⟩
  · show 0 ≤ (1 - (((fs.p + fs.q) * h) / ((h * (fs.p + fs.q) * h) + fs.r) * h)) *
      (fs.p + fs.q)
    rw [hpeq]
    positivity
  · show (1 - (((fs.p + fs.q) * h) / ((h * (fs.p + fs.q) * h) + fs.r) * h)) *
      (fs.p + fs.q) ≤ fs.p + fs.q
    rw [hpeq]
    exact hple

theorem adapt_fs_eq [FloorRing α] (log : α → α) (s : copper α) (hs : Inv s) (tag : Nat)
    (perf : α) (hperf : 0 ≤ perf) :
    ∃ (cap : α) (s' : copper α), copper_adapt log s tag perf = some (cap, s') ∧
      s'.fs = (estimate_base_workload s.fs perf s.xs.u).2 ∧ s'.ctx = s.ctx := by
  obtain ⟨xs', _, hadapt, _⟩ := copper_adapt_of_inv log s hs tag perf hperf
  refine ⟨_, _, hadapt, ?_, ?_⟩
  · rw [copper_log_fs]
  · rw [copper_log_ctx]

/-! ### The gain limiter -/

theorem xup_ens_bounds (e target : α) (ht : 0 < target) :
    0 ≤ xup_ens e target ∧ xup_ens e target < 1 := by
  unfold xup_ens
  have hen : 0 ≤ |e| / target := div_nonneg (abs_nonneg e) (le_of_lt ht)
  have hpos : 0 < |e| / target + 1 := by linarith
  have hinv : 0 < 1 / (|e| / target + 1) := one_div_pos.mpr hpos
  have hle : 1 / (|e| / target + 1) ≤ 1 := by
    rw [div_le_iff₀ hpos]
    linarith
  constructor <;> linarith

theorem xup_ens_pos (e target : α) (ht : 0 < target) (he : e ≠ 0) : 0 < xup_ens e target := by
  unfold xup_ens
  have hen : 0 < |e| / target := div_pos (abs_pos.mpr he) ht
  have hpos : 0 < |e| / target + 1 := by linarith
  have hlt : 1 / (|e| / target + 1) < 1 := by
    rw [div_lt_iff₀ hpos]
    linarith
  linarith

theorem xup_dens_bounds (e eo target : α) :
    0 < xup_dens e eo target ∧ xup_dens e eo target ≤ 1 := by
  unfold xup_dens
  have hden : 0 ≤ |(|eo| / target) - (|e| / target)| := abs_nonneg _
  have hpos : 0 < |(|eo| / target) - (|e| / target)| + 1 := by linarith
  refine ⟨one_div_pos.mpr hpos, ?_⟩
  rw [div_le_iff₀ hpos]
  linarith

theorem xup_gain_bounds (gl e eo target : α) (ht : 0 < target) (h0 : 0 ≤ gl) (h1 : gl < 1) :
    0 < xup_gain gl e eo target ∧ xup_gain gl e eo target ≤ 1 := by
  obtain ⟨he0, he1⟩ := xup_ens_bounds e target ht
  obtain ⟨hd0, hd1⟩ := xup_dens_bounds e eo target
  unfold xup_gain
  have hgd : gl * xup_dens e eo target ≤ gl := by
    have := mul_le_mul_of_nonneg_left hd1 h0
    rwa [mul_one] at this
  have hgd0 : 0 ≤ gl * xup_dens e eo target := mul_nonneg h0 (le_of_lt hd0)
  have hprod : gl * xup_dens e eo target * xup_ens e target ≤ gl * xup_dens e eo target := by
    have := mul_le_mul_of_nonneg_left (le_of_lt he1) hgd0
    rwa [mul_one] at this
  have hprod0 : 0 ≤ gl * xup_dens e eo target * xup_ens e target := mul_nonneg hgd0 he0
  constructor <;> linarith

theorem xup_gain_lt_one (gl e eo target : α) (ht : 0 < target) (h0 : 0 < gl) (he : e ≠ 0) :
    xup_gain gl e eo target < 1 := by
  have he0 := xup_ens_pos e target ht he
  obtain ⟨hd0, _⟩ := xup_dens_bounds e eo target
  unfold xup_gain
  have : 0 < gl * xup_dens e eo target * xup_ens e target := mul_pos (mul_pos h0 hd0) he0
  linarith

theorem xup_gain_zero (e eo target : α) : xup_gain 0 e eo target = 1 := by
  unfold xup_gain
  rw [zero_mul, zero_mul, sub_zero]

theorem xup_gain_no_error (gl eo target : α) : xup_gain gl 0 eo target = 1 := by
  unfold xup_gain xup_ens
  simp

theorem clamp_mono (v v' lo hi : α) (h : lo ≤ hi) (hv : v ≤ v') :
    clamp v lo hi ≤ clamp v' lo hi := by
  unfold clamp
  split_ifs <;> linarith

/-- Scaling a clamped value by a gain in `(0, 1]` and clamping again does not increase it. -/
theorem clamp_gain_le (g u1 umax : α) (hg1 : g ≤ 1) (h1 : 1 ≤ u1) (h2 : u1 ≤ umax) :
    clamp (g * u1) 1 umax ≤ u1 ∧ 1 ≤ clamp (g * u1) 1 umax ∧ clamp (g * u1) 1 umax ≤ umax := by
  have hle : g * u1 ≤ u1 := by
    have := mul_le_mul_of_nonneg_right hg1 (le_trans zero_le_one h1)
    rwa [one_mul] at this
  refine ⟨?_, clamp_ge _ _ _ (le_trans h1 h2), clamp_le _ _ _ (le_trans h1 h2)⟩
  unfold clamp
  split_ifs <;> linarith

/-- With a gain below 1 the limited value is strictly below a clamped value above 1. -/
theorem clamp_gain_lt (g u1 umax : α) (hg1 : g < 1) (h1 : 1 < u1) (h2 : u1 ≤ umax) :
    clamp (g * u1) 1 umax < u1 := by
  have hlt : g * u1 < u1 := by
    have := mul_lt_mul_of_pos_right hg1 (lt_trans zero_lt_one h1)
    rwa [one_mul] at this
  unfold clamp
  split_ifs <;> linarith

/-! ### The control law with the constants of `copper_init` -/

theorem xup_coefficients (xs : copper_xup_state α) (w : α) (hp1 : xs.p1 = 0) (hp2 : xs.p2 = 0)
    (hz1 : xs.z1 = 0) (hmu : xs.mu = 1) :
    xup_A xs = -1 ∧ xup_B xs = 0 ∧ xup_C xs w = -w ∧ xup_D xs w = 0 ∧ xup_F xs = -1 := by
  unfold xup_A xup_B xup_C xup_D xup_F
  rw [hp1, hp2, hz1, hmu]
  refine ⟨?_, ?_, ?_, ?_, ?_⟩ <;> norm_num

theorem xup_raw_default (xs : copper_xup_state α) (target achieved w : α) (hp1 : xs.p1 = 0)
    (hp2 : xs.p2 = 0) (hz1 : xs.z1 = 0) (hmu : xs.mu = 1) :
    xup_raw xs target achieved w = xs.uo + w * (target - achieved) := by
  obtain ⟨hA, hB, hC, hD, hF⟩ := xup_coefficients xs w hp1 hp2 hz1 hmu
  unfold xup_raw
  rw [hA, hB, hC, hD, hF]
  ring

/-- With the constants of `copper_init` the confidence zone is 0 steps, so `calculate_xup`
limits the gain exactly when the id it is given is positive. -/
theorem calculate_xup_default_eq [FloorRing α] (log : α → α) (xs : copper_xup_state α)
    (target achieved w : α) (id : Nat) (umax : α) (hp1 : xs.p1 = 0) (hepc : xs.epc = 5 / 100) :
    calculate_xup log xs target achieved w id umax =
      some { xs with e := target - achieved,
                     u := xup_new_u xs target achieved w umax (0 < id),
                     uoo := xs.uo,
                     uo := xup_new_u xs target achieved w umax (0 < id),
                     eo := target - achieved } := by
  rw [calculate_xup_eq, hp1, hepc, get_confidence_zone_default, Option.map_some']
  have hiff : ((id : α) > ((⌈(0 : α)⌉ : ℤ) : α)) ↔ 0 < id := by
    rw [Int.ceil_zero, Int.cast_zero, gt_iff_lt, Nat.cast_pos]
  have hu : xup_new_u xs target achieved w umax ((id : α) > ((⌈(0 : α)⌉ : ℤ) : α)) =
      xup_new_u xs target achieved w umax (0 < id) := by
    unfold xup_new_u
    by_cases hid : 0 < id
    · rw [if_pos hid, if_pos (hiff.mpr hid)]
    · rw [if_neg hid, if_neg (fun h => hid (hiff.mp h))]
  rw [hu]

/-- The control value that a valid `copper_adapt` stores on a record that satisfies the
invariant: the gain is limited exactly when the log sequence id is positive. -/
theorem adapt_u_eq [FloorRing α] (log : α → α) (s : copper α) (hs : Inv s) (tag : Nat)
    (perf : α) (hperf : 0 ≤ perf) :
    ∃ (cap : α) (s' : copper α),
      copper_adapt log s tag perf = some (cap, s') ∧
      s'.xs.u = xup_new_u s.xs s.ctx.constraint_target perf
        (estimate_base_workload s.fs perf s.xs.u).1 (s.ctx.cost_max / s.ctx.cost_min)
        (0 < s.ls.id) ∧
      cap = s'.xs.u * s.ctx.cost_min ∧ s'.ctx = s.ctx ∧ s'.xs.gl = s.xs.gl ∧
      s'.xs.eo = s.ctx.constraint_target - perf := by
  obtain ⟨xs', hcalc, hadapt, _⟩ := copper_adapt_of_inv log s hs tag perf hperf
  rw [calculate_xup_default_eq log s.xs _ _ _ _ _ hs.p1_eq hs.epc_eq] at hcalc
  have hxs := Option.some.inj hcalc
  refine ⟨_, _, hadapt, ?_, ?_, ?_, ?_, ?_⟩
  · rw [copper_log_xs, ← hxs]
  · rw [copper_log_xs]
  · rw [copper_log_ctx]
  · rw [copper_log_xs, ← hxs]
  · rw [copper_log_xs, ← hxs]

theorem umax_ge_one (s : copper α) (hs : Inv s) : 1 ≤ s.ctx.cost_max / s.ctx.cost_min := by
  rw [le_div_iff₀ hs.min_pos, one_mul]
  exact hs.min_le_max

theorem gain_cop_eq : gain_cop = { test_cop with xs := { test_cop.xs with gl := 1 / 2 } } := by
  have hc : ¬ ((1 / 2 : ℚ) < 0 ∨ (1 / 2 : ℚ) ≥ 1) := by norm_num
  unfold gain_cop copper_set_gain_limit
  rw [if_neg hc]

theorem gain_cop_reachable : Reachable log0 gain_cop :=
  Reachable.set_gain_limit test_cop (1 / 2) test_cop_reachable

theorem clamp_gt_one (v umax : α) (hv : 1 < v) (hu : 1 < umax) : 1 < clamp v 1 umax := by
  unfold clamp
  split_ifs <;> linarith

theorem copper_set_logging_fail (s : copper α) (lb : Option (Nat → copper_log_buffer α))
    (n : Nat) (f : FILE α) (hf : f.fault ≠ none) :
    (copper_set_logging s lb n (some f)).1 < 0 ∧ (copper_set_logging s lb n (some f)).2 = s := by
  obtain ⟨e, he⟩ := Option.ne_none_iff_exists'.mp hf
  have hw : fprintf f log_line.header = (-1, f) := by
    unfold fprintf
    rw [he]
  unfold copper_set_logging
  simp only [hw]
  rw [if_pos (by decide)]
  refine ⟨?_, rfl⟩
  show (-(((if f.fault.getD 0 = 0 then EIO_code else f.fault.getD 0 : Nat)) : Int)) < 0
  split_ifs with h0
  · unfold EIO_code
    decide
  · omega

/-! ### The gain limit while logging is disabled -/

/-- A call of `copper_adapt` keeps the capacity and whether there is a buffer. -/
theorem copper_adapt_keeps_log_config [FloorRing α] (log : α → α) (s : copper α) (tag : Nat)
    (perf r : α) (s' : copper α) (h : copper_adapt log s tag perf = some (r, s')) :
    s'.ls.lb_length = s.ls.lb_length ∧ (s'.ls.lb = none ↔ s.ls.lb = none) := by
  by_cases hdis : s.ls.lb = none ∨ s.ls.lb_length = 0
  · rw [copper_adapt_ls_disabled log s hdis tag perf r s' h]
    exact ⟨rfl, Iff.rfl⟩
  · simp only [not_or] at hdis
    obtain ⟨lb, hlb⟩ := Option.ne_none_iff_exists'.mp hdis.1
    have hN : 0 < s.ls.lb_length := Nat.pos_of_ne_zero hdis.2
    unfold copper_adapt at h
    by_cases hperf : perf < 0
    · rw [if_pos hperf] at h
      simp only [Option.some.injEq, Prod.mk.injEq] at h
      rw [← h.2]
      exact ⟨rfl, Iff.rfl⟩
    · rw [if_neg hperf] at h
      simp only [] at h
      cases hc : calculate_xup log s.xs s.ctx.constraint_target perf
          (estimate_base_workload s.fs perf s.xs.u).1 s.ls.id
          (s.ctx.cost_max / s.ctx.cost_min) with
      | none =>
        rw [hc] at h
        exact absurd h (by simp)
      | some xs =>
        rw [hc] at h
        simp only [] at h
        split_ifs at h
        simp only [Option.some.injEq, Prod.mk.injEq] at h
        rw [← h.2]
        rw [copper_log_enabled
          { s with fs := (estimate_base_workload s.fs perf s.xs.u).2, xs := xs } _ _ _ _ lb
          hlb hN]
        refine ⟨rfl, ?_⟩
        simp only [hlb]
        exact ⟨fun h1 => absurd h1 (Option.some_ne_none _),
          fun h1 => absurd h1 (Option.some_ne_none _)⟩

/-- In a reachable record with logging disabled the log sequence id is 0. -/
theorem reachable_disabled_id [FloorRing α] (log : α → α) (s : copper α)
    (h : Reachable log s) : (s.ls.lb = none ∨ s.ls.lb_length = 0) → s.ls.id = 0 := by
  induction h with
  | init cop t pmin pmax pstart h0 =>
    intro _
    obtain ⟨h1, h2, h3, h4⟩ := (copper_init_ok_iff cop t pmin pmax pstart).mp h0
    have hc : ¬ (t ≤ 0 ∨ pmin ≤ 0 ∨ pmax < pmin ∨ pstart < pmin ∨ pstart > pmax) := by
      simp only [not_or, not_le, not_lt]
      exact ⟨h1, h2, le_trans h3 h4, h3, h4⟩
    unfold copper_init
    rw [if_neg hc]
  | adapt s tag perf r s' _ hstep ih =>
    intro hdis'
    obtain ⟨hlen, hlb⟩ := copper_adapt_keeps_log_config log s tag perf r s' hstep
    have hdis : s.ls.lb = none ∨ s.ls.lb_length = 0 := by
      rcases hdis' with hd | hd
      · exact Or.inl (hlb.mp hd)
      · exact Or.inr (by rw [← hlen]; exact hd)
    rw [copper_adapt_ls_disabled log s hdis tag perf r s' hstep]
    exact ih hdis
  | set_performance_target s t _ ih =>
    intro hdis
    unfold copper_set_performance_target at hdis ⊢
    split_ifs at hdis ⊢
    · exact ih hdis
    · exact ih hdis
  | set_gain_limit s g _ ih =>
    intro hdis
    unfold copper_set_gain_limit at hdis ⊢
    split_ifs at hdis ⊢
    · exact ih hdis
    · exact ih hdis
  | set_logging s lb n lf _ ih =>
    intro hdis
    cases lf with
    | none => rfl
    | some f =>
      by_cases hf : f.fault = none
      · have hw : fprintf f log_line.header =
            (1, { f with out := f.out ++ [log_line.header] }) := by
          unfold fprintf
          rw [hf]
        unfold copper_set_logging
        simp only [hw]
        rw [if_neg (by decide)]
      · rw [(copper_set_logging_fail s lb n f hf).2] at hdis ⊢
        exact ih hdis
  | destroy s _ ih =>
    intro hdis
    obtain ⟨_, _, _, hid, hlen, hlb⟩ := copper_destroy_record s
    rw [hid]
    rw [hlen, hlb] at hdis
    exact ih hdis

/-- A valid `copper_adapt` on a record with logging disabled and log sequence id 0, in
full: the gain-limiting branch is not taken and the log state is untouched. -/
theorem adapt_disabled_eq [FloorRing α] (log : α → α) (s : copper α) (hs : Inv s)
    (hdis : s.ls.lb = none ∨ s.ls.lb_length = 0) (hid : s.ls.id = 0) (tag : Nat) (perf : α)
    (hperf : 0 ≤ perf) :
    copper_adapt log s tag perf =
      some (clamp (xup_raw s.xs s.ctx.constraint_target perf
              (estimate_base_workload s.fs perf s.xs.u).1) 1
              (s.ctx.cost_max / s.ctx.cost_min) * s.ctx.cost_min,
            { s with
              fs := (estimate_base_workload s.fs perf s.xs.u).2,
              xs := { s.xs with
                e := s.ctx.constraint_target - perf,
                u := clamp (xup_raw s.xs s.ctx.constraint_target perf
                  (estimate_base_workload s.fs perf s.xs.u).1) 1
                  (s.ctx.cost_max / s.ctx.cost_min),
                uoo := s.xs.uo,
                uo := clamp (xup_raw s.xs s.ctx.constraint_target perf
                  (estimate_base_workload s.fs perf s.xs.u).1) 1
                  (s.ctx.cost_max / s.ctx.cost_min),
                eo := s.ctx.constraint_target - perf } }) := by
  obtain ⟨xs', hcalc, hadapt, _⟩ := copper_adapt_of_inv log s hs tag perf hperf
  rw [calculate_xup_default_eq log s.xs _ _ _ _ _ hs.p1_eq hs.epc_eq] at hcalc
  have hxs := Option.some.inj hcalc
  have hnot : ¬ 0 < s.ls.id := by
    rw [hid]
    exact Nat.lt_irrefl 0
  have hnew : xup_new_u s.xs s.ctx.constraint_target perf
      (estimate_base_workload s.fs perf s.xs.u).1 (s.ctx.cost_max / s.ctx.cost_min)
      (0 < s.ls.id) =
      clamp (xup_raw s.xs s.ctx.constraint_target perf
        (estimate_base_workload s.fs perf s.xs.u).1) 1 (s.ctx.cost_max / s.ctx.cost_min) := by
    unfold xup_new_u
    rw [if_neg hnot]
  rw [hnew] at hxs
  rw [hadapt, copper_log_disabled
    { s with fs := (estimate_base_workload s.fs perf s.xs.u).2, xs := xs' } _ _ _ _ hdis,
    ← hxs]

theorem inv_with_gain_limit (s : copper α) (hs : Inv s) (g : α) (h0 : 0 ≤ g) (h1 : g < 1) :
    Inv (with_gain_limit s g) := by
  have hc : ¬ (g < 0 ∨ g ≥ 1) := by
    simp only [not_or, not_lt, not_le, ge_iff_le]
    exact ⟨h0, h1⟩
  have h := inv_set_gain_limit s hs g
  unfold copper_set_gain_limit at h
  rw [if_neg hc] at h
  exact h

/-- With logging disabled, a record and the same record with another gain limit return the
same values on every sequence of calls of `copper_adapt`, one value for each call. -/
theorem adapt_returns_gain_limit [FloorRing α] (log : α → α) (g : α)
    (inputs : List (Nat × α)) :
    ∀ s : copper α, Inv s → Inv (with_gain_limit s g) →
      (s.ls.lb = none ∨ s.ls.lb_length = 0) → s.ls.id = 0 →
      adapt_returns log s inputs = adapt_returns log (with_gain_limit s g) inputs ∧
      (adapt_returns log s inputs).length = inputs.length := by
  induction inputs with
  | nil =>
    intro s _ _ _ _
    exact ⟨rfl, rfl⟩
  | cons x rest ih =>
    intro s hs hsg hdis hid
    by_cases hperf : x.2 < 0
    · obtain ⟨ih1, ih2⟩ := ih s hs hsg hdis hid
      simp only [adapt_returns, copper_adapt_invalid log s x.1 x.2 hperf,
        copper_adapt_invalid log (with_gain_limit s g) x.1 x.2 hperf, List.length_cons]
      exact ⟨by rw [ih1], by rw [ih2]⟩
    · have hp : 0 ≤ x.2 := not_lt.mp hperf
      have e1 := adapt_disabled_eq log s hs hdis hid x.1 x.2 hp
      have e2 := adapt_disabled_eq log (with_gain_limit s g) hsg hdis hid x.1 x.2 hp
      have hs1 := inv_adapt log s hs x.1 x.2 _ _ e1
      have hs2 := inv_adapt log (with_gain_limit s g) hsg x.1 x.2 _ _ e2
      obtain ⟨ih1, ih2⟩ := ih _ hs1 hs2 hdis hid
      simp only [adapt_returns, e1, e2, List.length_cons]
      exact ⟨congrArg _ ih1, by rw [ih2]⟩

end Lemmas

/-! ## The claims -/

section Claims

variable {α : Type} [LinearOrderedField α]

/-- C1: in every record reachable from a successful `copper_init`, the control value `u`
lies in `[1, cost_max / cost_min]`, and every `copper_adapt` with a valid performance passes
both assertions and returns a cap equal to `u * cost_min` that lies in
`[cost_min, cost_max]`. -/
theorem reachable_u_and_cap_in_bounds [FloorRing α] (log : α → α) (s : copper α)
    (h : Reachable log s) :
    (1 ≤ s.xs.u ∧ s.xs.u ≤ s.ctx.cost_max / s.ctx.cost_min) ∧
    ∀ (tag : Nat) (perf : α), 0 ≤ perf →
      ∃ (cap : α) (s' : copper α),
        copper_adapt log s tag perf = some (cap, s') ∧
        cap = s'.xs.u * s'.ctx.cost_min ∧
        s'.ctx.cost_min ≤ cap ∧ cap ≤ s'.ctx.cost_max := by
  have hs := inv_of_reachable log s h
  refine ⟨⟨hs.one_le_u, hs.u_le⟩, ?_⟩
  intro tag perf hperf
  obtain ⟨xs', _, hadapt, _, _, hlo, hhi, _⟩ := copper_adapt_of_inv log s hs tag perf hperf
  refine ⟨_, _, hadapt, ?_, ?_, ?_⟩
  · rw [copper_log_xs, copper_log_ctx]
  · rw [copper_log_ctx]; exact hlo
  · rw [copper_log_ctx]; exact hhi

/-- Witness of C1 at the record of the unit test. -/
theorem reachable_u_and_cap_in_bounds_witness :
    (1 ≤ test_cop.xs.u ∧ test_cop.xs.u ≤ test_cop.ctx.cost_max / test_cop.ctx.cost_min) ∧
    ∀ (tag : Nat) (perf : ℚ), 0 ≤ perf →
      ∃ (cap : ℚ) (s' : copper ℚ),
        copper_adapt log0 test_cop tag perf = some (cap, s') ∧
        cap = s'.xs.u * s'.ctx.cost_min ∧
        s'.ctx.cost_min ≤ cap ∧ cap ≤ s'.ctx.cost_max :=
  reachable_u_and_cap_in_bounds log0 test_cop test_cop_reachable

/-- C2: `copper_init` returns 0 exactly when `performance_target > 0` and
`0 < power_min <= power_start <= power_max`, and returns `-EINVAL`, leaving the record as it
was, exactly when that fails. -/
theorem copper_init_returns (cop : copper α) (t pmin pmax pstart : α) :
    ((copper_init cop t pmin pmax pstart).1 = 0 ↔
      (0 < t ∧ 0 < pmin ∧ pmin ≤ pstart ∧ pstart ≤ pmax)) ∧
    (((copper_init cop t pmin pmax pstart).1 = -(EINVAL : Int) ∧
        (copper_init cop t pmin pmax pstart).2 = cop) ↔
      ¬ (0 < t ∧ 0 < pmin ∧ pmin ≤ pstart ∧ pstart ≤ pmax)) := by
  refine ⟨copper_init_ok_iff cop t pmin pmax pstart, ?_⟩
  rw [← copper_init_ok_iff cop t pmin pmax pstart]
  unfold copper_init
  split_ifs with hc
  · simp [EINVAL]
  · simp [EINVAL]

/-- C3: on a reachable record `copper_adapt` returns `-EINVAL` exactly when
`performance < 0`; such a call returns the record unchanged, so two invalid calls followed by
any call give what that call gives on the record that never saw them. -/
theorem copper_adapt_fails_iff_negative [FloorRing α] (log : α → α) (s : copper α)
    (h : Reachable log s) (tag : Nat) (perf : α) :
    ((copper_adapt log s tag perf).map Prod.fst = some (-(EINVAL : α)) ↔ perf < 0) ∧
    (perf < 0 → copper_adapt log s tag perf = some (-(EINVAL : α), s)) ∧
    ∀ (tag1 tag2 : Nat) (bad1 bad2 : α), bad1 < 0 → bad2 < 0 →
      ((copper_adapt log s tag1 bad1).bind fun r1 =>
        (copper_adapt log r1.2 tag2 bad2).bind fun r2 =>
          copper_adapt log r2.2 tag perf) = copper_adapt log s tag perf := by
  have hs := inv_of_reachable log s h
  refine ⟨⟨?_, ?_⟩, copper_adapt_invalid log s tag perf, ?_⟩
  · intro hret
    by_contra hneg
    obtain ⟨xs', _, hadapt, _, _, hlo, _, _⟩ :=
      copper_adapt_of_inv log s hs tag perf (not_lt.mp hneg)
    rw [hadapt] at hret
    simp only [Option.map_some', Option.some.injEq] at hret
    have hpos : (0 : α) < xs'.u * s.ctx.cost_min := lt_of_lt_of_le hs.min_pos hlo
    rw [hret] at hpos
    have h22 : (0 : α) < (EINVAL : α) := by
      unfold EINVAL
      norm_num
    linarith
  · intro hneg
    rw [copper_adapt_invalid log s tag perf hneg]
    rfl
  · intro tag1 tag2 bad1 bad2 h1 h2
    rw [copper_adapt_invalid log s tag1 bad1 h1]
    simp only [Option.some_bind]
    rw [copper_adapt_invalid log s tag2 bad2 h2]
    simp only [Option.some_bind]

/-- Witness of C3 at the record of the unit test, with the invalid performance `-1`. -/
theorem copper_adapt_fails_iff_negative_witness :
    ((copper_adapt log0 test_cop 0 (-1)).map Prod.fst = some (-(EINVAL : ℚ)) ↔ (-1 : ℚ) < 0) ∧
    ((-1 : ℚ) < 0 → copper_adapt log0 test_cop 0 (-1) = some (-(EINVAL : ℚ), test_cop)) ∧
    ∀ (tag1 tag2 : Nat) (bad1 bad2 : ℚ), bad1 < 0 → bad2 < 0 →
      ((copper_adapt log0 test_cop tag1 bad1).bind fun r1 =>
        (copper_adapt log0 r1.2 tag2 bad2).bind fun r2 =>
          copper_adapt log0 r2.2 0 (-1)) = copper_adapt log0 test_cop 0 (-1) :=
  copper_adapt_fails_iff_negative log0 test_cop test_cop_reachable 0 (-1)

/-- C4: `copper_set_gain_limit` returns 0 and stores `g` in `gl`, changing nothing else,
exactly when `0 <= g < 1`; otherwise (`g < 0` or `g >= 1`) it returns `-EINVAL` and the record
is unchanged. -/
theorem copper_set_gain_limit_returns (s : copper α) (g : α) :
    ((copper_set_gain_limit s g).1 = 0 ↔ (0 ≤ g ∧ g < 1)) ∧
    copper_set_gain_limit s g =
      (if 0 ≤ g ∧ g < 1 then (0, { s with xs := { s.xs with gl := g } })
       else (-(EINVAL : Int), s)) ∧
    ((g < 0 ∨ 1 ≤ g) ↔ copper_set_gain_limit s g = (-(EINVAL : Int), s)) := by
  unfold copper_set_gain_limit
  by_cases hc : g < 0 ∨ g ≥ 1
  · have hn : ¬ (0 ≤ g ∧ g < 1) := by
      rintro ⟨h0, h1⟩
      rcases hc with hc | hc
      · exact absurd h0 (not_le.mpr hc)
      · exact absurd h1 (not_lt.mpr hc)
    rw [if_pos hc, if_neg hn]
    refine ⟨⟨fun h0 => absurd h0 (by simp [EINVAL]), fun h => absurd h hn⟩, rfl, ?_⟩
    exact ⟨fun _ => rfl, fun _ => hc⟩
  · have hp : 0 ≤ g ∧ g < 1 := by
      simp only [not_or, not_lt, not_le, ge_iff_le] at hc
      exact hc
    rw [if_neg hc, if_pos hp]
    refine ⟨⟨fun _ => hp, fun _ => rfl⟩, rfl, ?_⟩
    constructor
    · intro h
      exact absurd h hc
    · intro h
      have h1 := congrArg Prod.fst h
      simp [EINVAL] at h1

/-- C5: `copper_set_performance_target` returns 0 and stores `t` as the target, changing
nothing else, exactly when `t > 0`; otherwise it returns `-EINVAL` and the record is
unchanged; the target of a reachable record is positive, before and after the call. -/
theorem copper_set_performance_target_returns [FloorRing α] (log : α → α) (s : copper α)
    (t : α) :
    ((copper_set_performance_target s t).1 = 0 ↔ 0 < t) ∧
    copper_set_performance_target s t =
      (if 0 < t then (0, { s with ctx := { s.ctx with constraint_target := t } })
       else (-(EINVAL : Int), s)) ∧
    (Reachable log s →
      0 < s.ctx.constraint_target ∧
      0 < (copper_set_performance_target s t).2.ctx.constraint_target) := by
  refine ⟨?_, ?_, ?_⟩
  · unfold copper_set_performance_target
    split_ifs with hc
    · exact ⟨fun h0 => absurd h0 (by simp [EINVAL]), fun h => absurd h (not_lt.mpr hc)⟩
    · exact ⟨fun _ => not_le.mp hc, fun _ => rfl⟩
  · unfold copper_set_performance_target
    by_cases hc : t ≤ 0
    · rw [if_pos hc, if_neg (not_lt.mpr hc)]
    · rw [if_neg hc, if_pos (not_le.mp hc)]
  · intro h
    exact ⟨(inv_of_reachable log s h).target_pos,
      (inv_of_reachable log _ (Reachable.set_performance_target s t h)).target_pos⟩

/-- Witness of C5: the target of the unit test's record is positive, also after a rejected
call with target 0. -/
theorem copper_set_performance_target_returns_witness :
    0 < test_cop.ctx.constraint_target ∧
    0 < (copper_set_performance_target test_cop 0).2.ctx.constraint_target :=
  (copper_set_performance_target_returns log0 test_cop 0).2.2 test_cop_reachable

/-- C6: the tag passed to `copper_adapt` is used only for log attribution.  For every record,
performance and two tags, the two calls return the same value (or both abort) and the same
context, estimator state, control-law state, log sequence id and capacity; the two records
differ at most in the user tag of the buffer entry written by the step and, when the step
flushed, in the user-tag column of the row of that entry, the last line of the log file. -/
theorem copper_adapt_tag_only_in_log [FloorRing α] (log : α → α) (s : copper α) (perf : α)
    (t1 t2 : Nat) :
    results_same_up_to_tag (s.ls.id % s.ls.lb_length)
      (copper_adapt log s t1 perf) (copper_adapt log s t2 perf) := by
  unfold copper_adapt
  by_cases hperf : perf < 0
  · rw [if_pos hperf, if_pos hperf]
    exact ⟨rfl, same_up_to_tag_refl _ s⟩
  · rw [if_neg hperf, if_neg hperf]
    simp only []
    cases calculate_xup log s.xs s.ctx.constraint_target perf
        (estimate_base_workload s.fs perf s.xs.u).1 s.ls.id (s.ctx.cost_max / s.ctx.cost_min) with
    | none => exact True.intro
    | some xs =>
      simp only []
      split_ifs
      · exact ⟨rfl, copper_log_same_up_to_tag
          { s with fs := (estimate_base_workload s.fs perf s.xs.u).2, xs := xs } t1 t2 _ _ _⟩
      · exact True.intro
      · exact True.intro

/-- C7, amended: on a reachable record whose logging was just configured with a buffer of
capacity `N >= 1` and a working stream, the `k`-th valid `copper_adapt` since configuration,
for `k <= 2^64`, records the entry with sequence id `k - 1` in slot `(k - 1) mod N`, and
writes to the stream exactly when `N` divides `k`: then the rows of the slots `0, ..., N - 1`
in this order, whose sequence ids are `k - N, ..., k - 1`. -/
theorem logged_step_slot_and_flush [FloorRing α] (log : α → α) (c : copper α)
    (hc : Reachable log c) (buf0 : Nat → copper_log_buffer α) (N : Nat) (hN : 1 ≤ N)
    (f0 : FILE α) (hf0 : f0.fault = none) (inputs : List (Nat × α))
    (hvalid : ∀ x ∈ inputs, 0 ≤ x.2) (tag : Nat) (perf : α) (hperf : 0 ≤ perf) (k : Nat)
    (hk : k = inputs.length + 1) (hk64 : k ≤ UINT64_MOD) :
    ∃ (s1 : copper α) (cap : α) (s2 : copper α) (buf1 buf2 : Nat → copper_log_buffer α)
      (f1 : FILE α),
      adapt_all log (copper_set_logging c (some buf0) N (some f0)).2 inputs = some s1 ∧
      copper_adapt log s1 tag perf = some (cap, s2) ∧
      s1.ls.lb = some buf1 ∧ s1.ls.lf = some f1 ∧
      (entry_of s1 tag perf cap s2).id = k - 1 ∧
      buf2 = Function.update buf1 ((k - 1) % N) (entry_of s1 tag perf cap s2) ∧
      s2.ls.lb = some buf2 ∧
      s2.ls.lf = some { f1 with out := f1.out ++ if N ∣ k then flush_rows buf2 0 N else [] } ∧
      (N ∣ k → (flush_rows buf2 0 N).map line_id = (List.range' (k - N) N).map some) := by
  have hcfg := (log_inv_configured c buf0 N f0 hf0).2
  have hinv0 : Inv (copper_set_logging c (some buf0) N (some f0)).2 :=
    inv_set_logging c (inv_of_reachable log c hc) _ _ _
  obtain ⟨s1, buf1, f1, hrun, hinv1, hL1, hlen⟩ :=
    adapt_all_log log N hN _ inputs hvalid [] _ _ _ hinv0 hcfg
      (by rw [List.length_nil]; omega)
  rw [List.nil_append] at hL1
  have hE : (run_entries log (copper_set_logging c (some buf0) N (some f0)).2 inputs).length
      = k - 1 := by omega
  obtain ⟨cap, s2, hstep, _, hid, hL2⟩ :=
    adapt_step_log log N _ _ s1 buf1 f1 hinv1 hL1 hN (by omega) tag perf hperf
  rw [hE] at hid hL2
  have hiff : (k - 1) % N = N - 1 ↔ N ∣ k := by
    rw [last_slot_iff_dvd N (k - 1) hN]
    have hk1 : k - 1 + 1 = k := by omega
    rw [hk1]
  refine ⟨s1, cap, s2, buf1, _, f1, hrun, hstep, hL1.lb_eq, hL1.lf_eq, hid, rfl, hL2.lb_eq,
    ?_, ?_⟩
  · rw [hL2.lf_eq]
    by_cases hd : N ∣ k
    · rw [if_pos (hiff.mpr hd), if_pos hd]
    · rw [if_neg (fun h => hd (hiff.mp h)), if_neg hd, List.append_nil]
  · intro hd
    have hlen2 : (run_entries log (copper_set_logging c (some buf0) N (some f0)).2 inputs ++
        [entry_of s1 tag perf cap s2]).length = k := by
      rw [List.length_append, List.length_singleton, hE]
      omega
    have hids := (flush_rows_ids N _ _ (by rw [hlen2]; exact Nat.le_of_dvd (by omega) hd)
      (by rw [hlen2]; exact hd) hL2.window hL2.ids).2
    rw [hlen2] at hids
    exact hids

/-- Witness of C7 (amended): capacity 2 on the record of the unit test, one step before the
step considered, which is the second and flushes. -/
theorem logged_step_slot_and_flush_witness :
    ∃ (s1 : copper ℚ) (cap : ℚ) (s2 : copper ℚ) (buf1 buf2 : Nat → copper_log_buffer ℚ)
      (f1 : FILE ℚ),
      adapt_all log0 (copper_set_logging test_cop (some blank_buf) 2 (some empty_file)).2
        [(0, 1)] = some s1 ∧
      copper_adapt log0 s1 1 1 = some (cap, s2) ∧
      s1.ls.lb = some buf1 ∧ s1.ls.lf = some f1 ∧
      (entry_of s1 1 1 cap s2).id = 2 - 1 ∧
      buf2 = Function.update buf1 ((2 - 1) % 2) (entry_of s1 1 1 cap s2) ∧
      s2.ls.lb = some buf2 ∧
      s2.ls.lf = some { f1 with out := f1.out ++ if 2 ∣ 2 then flush_rows buf2 0 2 else [] } ∧
      (2 ∣ 2 → (flush_rows buf2 0 2).map line_id = (List.range' (2 - 2) 2).map some) :=
  logged_step_slot_and_flush log0 test_cop test_cop_reachable blank_buf 2 (by decide)
    empty_file rfl [(0, 1)] (by intro x hx; rw [List.mem_singleton.mp hx]; exact zero_le_one)
    1 1 zero_le_one 2 rfl (by unfold UINT64_MOD; norm_num)

/-- C7 as stated fails once the 64-bit sequence id has wrapped: with capacity 3, step number
`2^64 + 1` records its entry, with sequence id 0, in slot 0, whereas
`(2^64 + 1 - 1) mod 3 = 1`; slot 1 keeps the entry with sequence id `2^64 - 3`. -/
theorem logged_step_slot_after_wrap :
    ∃ (s1 : copper ℚ) (cap : ℚ) (s2 : copper ℚ) (buf1 buf2 : Nat → copper_log_buffer ℚ),
      adapt_all log0 (copper_set_logging test_cop (some blank_buf) 3 (some empty_file)).2
        wrap_inputs = some s1 ∧
      wrap_inputs.length + 1 = 2 ^ 64 + 1 ∧
      copper_adapt log0 s1 0 1 = some (cap, s2) ∧
      s1.ls.lb = some buf1 ∧ s2.ls.lb = some buf2 ∧
      buf2 = Function.update buf1 0 (entry_of s1 0 1 cap s2) ∧
      (entry_of s1 0 1 cap s2).id = 0 ∧
      (2 ^ 64 + 1 - 1) % 3 = 1 ∧
      (buf2 1).id = 2 ^ 64 - 3 := by
  obtain ⟨s1, E, buf1, f1, hrun, hinv1, hlen, hL1⟩ := state_after_wrap
  have hid : s1.ls.id = 0 := by
    rw [hL1.id_eq, hlen, Nat.mod_self]
  obtain ⟨cap, s2, hstep, heid, hlb2, _⟩ :=
    copper_adapt_logs log0 s1 hinv1 buf1 hL1.lb_eq (by rw [hL1.len]; decide) 0 1 zero_le_one
  rw [hid, hL1.len] at hlb2
  rw [hid] at heid
  refine ⟨s1, cap, s2, buf1, _, hrun, ?_, hstep, hL1.lb_eq, hlb2, rfl, heid, by norm_num, ?_⟩
  · rw [wrap_inputs_length]
    rfl
  · have h31 : (1 : Nat) ≠ 0 % 3 := by decide
    rw [Function.update_noteq h31]
    have hm : 2 ^ 64 - 3 < E.length := by
      rw [hlen]
      unfold UINT64_MOD
      norm_num
    have hw := hL1.window (2 ^ 64 - 3) hm (by rw [hlen]; unfold UINT64_MOD; norm_num)
    have hmod : (2 ^ 64 - 3) % 3 = 1 := by norm_num
    rw [hmod] at hw
    have hids := congrArg (fun l => l[2 ^ 64 - 3]?) hL1.ids
    simp only [List.getElem?_map, hw, Option.map_some'] at hids
    rw [List.getElem?_range hm] at hids
    exact Option.some.inj hids

/-- C8, amended: on a reachable record whose logging was just configured with a buffer of
capacity `N >= 1` and a working stream, after `n < 2^64` valid steps `copper_destroy` appends
to the stream exactly the rows of the entries recorded since the last flush: the last
`n mod N` entries, with sequence ids `n - n mod N, ..., n - 1` in ascending order.  The stream
then holds what it held before configuration, the header, and the rows of the entries
`0, ..., n - 1`, once each, in ascending order. -/
theorem destroy_flushes_pending [FloorRing α] (log : α → α) (c : copper α)
    (hc : Reachable log c) (buf0 : Nat → copper_log_buffer α) (N : Nat) (hN : 1 ≤ N)
    (f0 : FILE α) (hf0 : f0.fault = none) (inputs : List (Nat × α))
    (hvalid : ∀ x ∈ inputs, 0 ≤ x.2) (n : Nat) (hn : n = inputs.length)
    (hn64 : n < UINT64_MOD) :
    ∃ (s1 : copper α) (f1 : FILE α) (E : List (copper_log_buffer α)),
      adapt_all log (copper_set_logging c (some buf0) N (some f0)).2 inputs = some s1 ∧
      E = run_entries log (copper_set_logging c (some buf0) N (some f0)).2 inputs ∧
      E.length = n ∧ E.map (fun e => e.id) = List.range n ∧
      s1.ls.lf = some f1 ∧
      (copper_destroy s1).ls.lf =
        some { f1 with out := f1.out ++ (E.drop (n - n % N)).map line_of } ∧
      ((E.drop (n - n % N)).map line_of).map line_id =
        (List.range' (n - n % N) (n % N)).map some ∧
      f1.out ++ (E.drop (n - n % N)).map line_of =
        f0.out ++ [log_line.header] ++ E.map line_of := by
  have hcfg := (log_inv_configured c buf0 N f0 hf0).2
  have hinv0 : Inv (copper_set_logging c (some buf0) N (some f0)).2 :=
    inv_set_logging c (inv_of_reachable log c hc) _ _ _
  obtain ⟨s1, buf1, f1, hrun, _, hL1, hlen⟩ :=
    adapt_all_log log N hN _ inputs hvalid [] _ _ _ hinv0 hcfg
      (by rw [List.length_nil]; omega)
  rw [List.nil_append] at hL1
  have hE : (run_entries log (copper_set_logging c (some buf0) N (some f0)).2 inputs).length
      = n := by omega
  have hids := hL1.ids
  have hout := hL1.out_eq
  have hwin := hL1.window
  have hid := hL1.id_eq
  rw [hE] at hids hout hwin hid
  rw [Nat.mod_eq_of_lt hn64] at hid
  have hmodle : n % N ≤ n := Nat.mod_le _ _
  have hmodlt : n % N < N := Nat.mod_lt _ hN
  have hdvd : N ∣ n - n % N := Nat.dvd_sub_mod n
  have hrows : flush_rows buf1 0 (n % N) =
      ((run_entries log (copper_set_logging c (some buf0) N (some f0)).2 inputs).drop
        (n - n % N)).map line_of := by
    apply flush_rows_eq_drop buf1 _ (n - n % N) (n % N) (by omega)
    intro j hj
    rw [hwin (n - n % N + j) (by omega) (by omega)]
    congr 2
    rw [Nat.add_mod, Nat.mod_eq_zero_of_dvd hdvd, Nat.zero_add, Nat.mod_mod,
      Nat.mod_eq_of_lt (by omega)]
  have hdr : destroy_rows s1 f1 = flush_rows buf1 0 (n % N) := by
    unfold destroy_rows
    have hpos : 0 < N := hN
    rw [hL1.len, if_pos hpos, hL1.lb_eq, hL1.ok, hid]
  refine ⟨s1, f1, _, hrun, rfl, hE, hids, hL1.lf_eq, ?_, ?_, ?_⟩
  · rw [copper_destroy_lf, hL1.lf_eq, Option.map_some', hdr, hrows]
  · have hcomp : ∀ l : List (copper_log_buffer α),
        (l.map line_of).map line_id = (l.map fun e => e.id).map some := by
      intro l
      rw [List.map_map, List.map_map]
      rfl
    rw [hcomp, List.map_drop, hids, drop_range_eq _ _ (Nat.sub_le _ _)]
    have hsub : n - (n - n % N) = n % N := by omega
    rw [hsub]
  · rw [hout, List.append_assoc, ← List.map_append, List.take_append_drop]

/-- Witness of C8 (amended): capacity 2 on the record of the unit test, one step. -/
theorem destroy_flushes_pending_witness :
    ∃ (s1 : copper ℚ) (f1 : FILE ℚ) (E : List (copper_log_buffer ℚ)),
      adapt_all log0 (copper_set_logging test_cop (some blank_buf) 2 (some empty_file)).2
        [(0, 1)] = some s1 ∧
      E = run_entries log0 (copper_set_logging test_cop (some blank_buf) 2 (some empty_file)).2
        [(0, 1)] ∧
      E.length = 1 ∧ E.map (fun e => e.id) = List.range 1 ∧
      s1.ls.lf = some f1 ∧
      (copper_destroy s1).ls.lf =
        some { f1 with out := f1.out ++ (E.drop (1 - 1 % 2)).map line_of } ∧
      ((E.drop (1 - 1 % 2)).map line_of).map line_id =
        (List.range' (1 - 1 % 2) (1 % 2)).map some ∧
      f1.out ++ (E.drop (1 - 1 % 2)).map line_of =
        empty_file.out ++ [log_line.header] ++ E.map line_of :=
  destroy_flushes_pending log0 test_cop test_cop_reachable blank_buf 2 (by decide)
    empty_file rfl [(0, 1)] (by intro x hx; rw [List.mem_singleton.mp hx]; exact zero_le_one)
    1 rfl (by unfold UINT64_MOD; norm_num)

/-- C8 as stated fails once the 64-bit sequence id has wrapped: with capacity 3, after
`2^64` steps the claim has `copper_destroy` write `2^64 mod 3 = 1` row, the one with sequence
id `2^64 - 1`, but the sequence id is 0 again and `copper_destroy` writes nothing. -/
theorem destroy_after_wrap_writes_nothing :
    ∃ (s1 : copper ℚ) (f1 : FILE ℚ),
      adapt_all log0 (copper_set_logging test_cop (some blank_buf) 3 (some empty_file)).2
        wrap_inputs = some s1 ∧
      wrap_inputs.length = 2 ^ 64 ∧ 2 ^ 64 % 3 = 1 ∧
      s1.ls.lf = some f1 ∧ (copper_destroy s1).ls.lf = some f1 := by
  obtain ⟨s1, E, buf1, f1, hrun, _, hlen, hL1⟩ := state_after_wrap
  have hid : s1.ls.id = 0 := by
    rw [hL1.id_eq, hlen, Nat.mod_self]
  refine ⟨s1, f1, hrun, ?_, by norm_num, hL1.lf_eq, ?_⟩
  · rw [wrap_inputs_length]
    rfl
  · have hdr : destroy_rows s1 f1 = [] := by
      unfold destroy_rows
      rw [hL1.len, hL1.lb_eq, hL1.ok, hid]
      rfl
    rw [copper_destroy_lf, hL1.lf_eq, Option.map_some', hdr, file_append_nil]

/-- C9, amended: `copper_destroy` changes nothing of the record but the log file, so a
second call leaves context, estimator state, control-law state, sequence id, capacity and
buffer as the first call does.  The second call appends to the log file the rows that the
first call appended, so the file is as after a single call exactly when the single call wrote
nothing. -/
theorem copper_destroy_twice (s : copper α) :
    ((copper_destroy (copper_destroy s)).ctx = (copper_destroy s).ctx ∧
     (copper_destroy (copper_destroy s)).fs = (copper_destroy s).fs ∧
     (copper_destroy (copper_destroy s)).xs = (copper_destroy s).xs ∧
     (copper_destroy (copper_destroy s)).ls.id = (copper_destroy s).ls.id ∧
     (copper_destroy (copper_destroy s)).ls.lb_length = (copper_destroy s).ls.lb_length ∧
     (copper_destroy (copper_destroy s)).ls.lb = (copper_destroy s).ls.lb) ∧
    (copper_destroy s).ls.lf =
      s.ls.lf.map (fun f => { f with out := f.out ++ destroy_rows s f }) ∧
    (copper_destroy (copper_destroy s)).ls.lf =
      s.ls.lf.map (fun f => { f with out := f.out ++ destroy_rows s f ++ destroy_rows s f }) ∧
    ((copper_destroy (copper_destroy s)).ls.lf = (copper_destroy s).ls.lf ↔
      (copper_destroy s).ls.lf = s.ls.lf) := by
  refine ⟨copper_destroy_record (copper_destroy s), copper_destroy_lf s,
    copper_destroy_twice_lf s, ?_⟩
  rw [copper_destroy_twice_lf s, copper_destroy_lf s]
  cases s.ls.lf with
  | none => exact ⟨fun _ => rfl, fun _ => rfl⟩
  | some f =>
    simp only [Option.map_some', Option.some.injEq]
    rw [file_with_out_eq_iff, file_append_eq_self_iff, List.append_right_eq_self]

/-- C9 as stated fails: on the record of the unit test with capacity 2 and a working stream,
after one step a call of `copper_destroy` appends one row to the stream and a second call
appends the same row again. -/
theorem copper_destroy_twice_writes_twice :
    ∃ (s1 : copper ℚ) (f1 : FILE ℚ) (r : log_line ℚ),
      adapt_all log0 (copper_set_logging test_cop (some blank_buf) 2 (some empty_file)).2
        [(0, 1)] = some s1 ∧
      s1.ls.lf = some f1 ∧
      (copper_destroy s1).ls.lf = some { f1 with out := f1.out ++ [r] } ∧
      (copper_destroy (copper_destroy s1)).ls.lf =
        some { f1 with out := f1.out ++ [r] ++ [r] } ∧
      (copper_destroy (copper_destroy s1)).ls.lf ≠ (copper_destroy s1).ls.lf := by
  have hcfg := (log_inv_configured test_cop blank_buf 2 empty_file rfl).2
  have hinv0 : Inv (copper_set_logging test_cop (some blank_buf) 2 (some empty_file)).2 :=
    inv_set_logging test_cop (inv_of_reachable log0 test_cop test_cop_reachable) _ _ _
  obtain ⟨s1, buf1, f1, hrun, _, hL1, hlen⟩ :=
    adapt_all_log log0 2 (by decide) _ [(0, 1)]
      (by intro x hx; rw [List.mem_singleton.mp hx]; exact zero_le_one) [] _ _ _ hinv0 hcfg
      (by unfold UINT64_MOD; norm_num)
  rw [List.nil_append] at hL1
  have hid : s1.ls.id = 1 := by
    rw [hL1.id_eq, hlen]
    rfl
  have hdr : destroy_rows s1 f1 = [line_of (buf1 0)] := by
    unfold destroy_rows
    rw [hL1.len, hL1.lb_eq, hL1.ok, hid]
    rfl
  have h1 : (copper_destroy s1).ls.lf = some { f1 with out := f1.out ++ [line_of (buf1 0)] } := by
    rw [copper_destroy_lf, hL1.lf_eq, Option.map_some', hdr]
  have h2 : (copper_destroy (copper_destroy s1)).ls.lf =
      some { f1 with out := f1.out ++ [line_of (buf1 0)] ++ [line_of (buf1 0)] } := by
    rw [copper_destroy_twice_lf, hL1.lf_eq, Option.map_some', hdr]
  refine ⟨s1, f1, line_of (buf1 0), hrun, hL1.lf_eq, h1, h2, ?_⟩
  rw [h1, h2]
  intro h
  have hl := congrArg (fun o => o.map fun f => f.out.length) h
  simp only [Option.map_some', Option.some.injEq, List.length_append, List.length_singleton] at hl
  omega

/-- C10, amended: a call of `copper_set_logging` that returns 0 resets the log sequence id
to 0 and stores the capacity, the buffer and the stream, to which it has appended the header
line (no stream when none is supplied), and changes nothing else of the record; the call
returns 0 exactly when no stream is supplied or the header can be written to it.  Otherwise it
returns a negative error code and leaves the record, the sequence id included, as it was. -/
theorem copper_set_logging_resets_id (s : copper α) (lb : Option (Nat → copper_log_buffer α))
    (n : Nat) (lf : Option (FILE α)) :
    ((copper_set_logging s lb n lf).1 = 0 ↔ ∀ f, lf = some f → f.fault = none) ∧
    ((copper_set_logging s lb n lf).1 = 0 →
      (copper_set_logging s lb n lf).2.ls.id = 0 ∧
      (copper_set_logging s lb n lf).2.ls.lb_length = n ∧
      (copper_set_logging s lb n lf).2.ls.lb = lb ∧
      (copper_set_logging s lb n lf).2.ls.lf =
        lf.map (fun f => { f with out := f.out ++ [log_line.header] }) ∧
      (copper_set_logging s lb n lf).2 =
        { s with ls := { id := 0, lb_length := n, lb := lb,
                         lf := lf.map (fun f => { f with out := f.out ++ [log_line.header] }) } })
    ∧
    ((copper_set_logging s lb n lf).1 ≠ 0 →
      (copper_set_logging s lb n lf).1 < 0 ∧ (copper_set_logging s lb n lf).2 = s) := by
  cases lf with
  | none =>
    unfold copper_set_logging
    refine ⟨⟨fun _ f hf => absurd hf (Option.noConfusion), fun _ => rfl⟩,
      fun _ => ⟨rfl, rfl, rfl, rfl, rfl⟩, fun h => absurd rfl h⟩
  | some f =>
    by_cases hf : f.fault = none
    · have hw : fprintf f log_line.header =
          (1, { f with out := f.out ++ [log_line.header] }) := by
        unfold fprintf
        rw [hf]
      have heq : copper_set_logging s lb n (some f) =
          (0, { s with ls := { id := 0, lb_length := n, lb := lb,
                               lf := some { f with out := f.out ++ [log_line.header] } } }) := by
        unfold copper_set_logging
        simp only [hw]
        rw [if_neg (by decide)]
      rw [heq]
      refine ⟨⟨fun _ g hg => ?_, fun _ => rfl⟩, fun _ => ⟨rfl, rfl, rfl, rfl, rfl⟩,
        fun h => absurd rfl h⟩
      rw [← Option.some.inj hg]
      exact hf
    · obtain ⟨hneg, hsame⟩ := copper_set_logging_fail s lb n f hf
      exact ⟨⟨fun h0 => absurd h0 (ne_of_lt hneg), fun h => absurd (h f rfl) hf⟩,
        fun h0 => absurd h0 (ne_of_lt hneg), fun _ => ⟨hneg, hsame⟩⟩

/-- Witness of C10 (amended): after one logged step on the record of the unit test the
sequence id is 1; configuring that record with capacity 3, a buffer and an empty stream on
which writes succeed returns 0 and leaves the sequence id 0, the capacity 3, the buffer, and
the stream with the header as its only line. -/
theorem copper_set_logging_resets_id_witness :
    ∃ (cap : ℚ) (s1 : copper ℚ),
      copper_adapt log0 (copper_set_logging test_cop (some blank_buf) 1 none).2 0 1 =
        some (cap, s1) ∧
      s1.ls.id = 1 ∧
      (copper_set_logging s1 (some blank_buf) 3 (some empty_file)).1 = 0 ∧
      (copper_set_logging s1 (some blank_buf) 3 (some empty_file)).2.ls.id = 0 ∧
      (copper_set_logging s1 (some blank_buf) 3 (some empty_file)).2.ls.lb_length = 3 ∧
      (copper_set_logging s1 (some blank_buf) 3 (some empty_file)).2.ls.lb = some blank_buf ∧
      (copper_set_logging s1 (some blank_buf) 3 (some empty_file)).2.ls.lf =
        some { out := [log_line.header], fault := none } := by
  have hinv0 : Inv (copper_set_logging test_cop (some blank_buf) 1 none).2 :=
    inv_set_logging test_cop (inv_of_reachable log0 test_cop test_cop_reachable) _ _ _
  obtain ⟨cap, s1, hstep, _, _, hid, _⟩ :=
    copper_adapt_logs log0 _ hinv0 blank_buf rfl (by decide) 0 1 zero_le_one
  have hid1 : s1.ls.id = 1 := by
    rw [hid]
    rfl
  have hok : (copper_set_logging s1 (some blank_buf) 3 (some empty_file)).1 = 0 :=
    (copper_set_logging_resets_id s1 (some blank_buf) 3 (some empty_file)).1.mpr
      (fun f hf => by rw [← Option.some.inj hf]; rfl)
  obtain ⟨h1, h2, h3, h4, _⟩ :=
    (copper_set_logging_resets_id s1 (some blank_buf) 3 (some empty_file)).2.1 hok
  exact ⟨cap, s1, hstep, hid1, hok, h1, h2, h3, h4⟩

/-- C10 as stated fails: after one logged step on the record of the unit test the
sequence id is 1; a call of `copper_set_logging` with a stream on which the header cannot be
written returns `-errno` (here -28) and the sequence id is still 1. -/
theorem copper_set_logging_failure_keeps_id :
    ∃ (cap : ℚ) (s1 : copper ℚ),
      copper_adapt log0 (copper_set_logging test_cop (some blank_buf) 1 none).2 0 1 =
        some (cap, s1) ∧
      (copper_set_logging s1 (some blank_buf) 1 (some full_file)).1 = -28 ∧
      (copper_set_logging s1 (some blank_buf) 1 (some full_file)).2.ls.id = 1 := by
  have hinv0 : Inv (copper_set_logging test_cop (some blank_buf) 1 none).2 :=
    inv_set_logging test_cop (inv_of_reachable log0 test_cop test_cop_reachable) _ _ _
  obtain ⟨cap, s1, hstep, _, _, hid, _⟩ :=
    copper_adapt_logs log0 _ hinv0 blank_buf rfl (by decide) 0 1 zero_le_one
  have hid1 : s1.ls.id = 1 := by
    rw [hid]
    rfl
  refine ⟨cap, s1, hstep, rfl, ?_⟩
  rw [← hid1]
  rfl

/-- C11, amended: `copper_set_logging` with capacity 0 and no stream returns 0, changes
nothing but the log state (sequence id 0, capacity 0, the buffer reference, no stream) and
leaves logging disabled (`copper_log` and `copper_destroy` do nothing); a second such call
returns the record of the first unchanged.  With a stream on which writes succeed each call
does the same and appends the header line to the stream, so the stream holds two more
header lines after the two calls.  With a stream on which the header cannot be written the
call returns a negative error code and leaves the record as it was. -/
theorem set_logging_capacity_zero (s : copper α) (lb : Option (Nat → copper_log_buffer α))
    (f : FILE α) (hf : f.fault = none) :
    (copper_set_logging s lb 0 none =
        (0, { s with ls := { id := 0, lb_length := 0, lb := lb, lf := none } }) ∧
     copper_set_logging (copper_set_logging s lb 0 none).2 lb 0 none =
        (0, (copper_set_logging s lb 0 none).2) ∧
     (∀ (tag : Nat) (a w c : α),
        copper_log (copper_set_logging s lb 0 none).2 tag a w c =
          (copper_set_logging s lb 0 none).2) ∧
     copper_destroy (copper_set_logging s lb 0 none).2 = (copper_set_logging s lb 0 none).2) ∧
    (copper_set_logging s lb 0 (some f) =
        (0, { s with ls := { id := 0, lb_length := 0, lb := lb,
                             lf := some { f with out := f.out ++ [log_line.header] } } }) ∧
     copper_set_logging (copper_set_logging s lb 0 (some f)).2 lb 0
        (copper_set_logging s lb 0 (some f)).2.ls.lf =
        (0, { s with ls := { id := 0, lb_length := 0, lb := lb,
                             lf := some { f with out := f.out ++ [log_line.header] ++
                               [log_line.header] } } }) ∧
     (∀ (tag : Nat) (a w c : α),
        copper_log (copper_set_logging s lb 0 (some f)).2 tag a w c =
          (copper_set_logging s lb 0 (some f)).2) ∧
     copper_destroy (copper_set_logging s lb 0 (some f)).2 =
       (copper_set_logging s lb 0 (some f)).2) ∧
    (∀ g : FILE α, g.fault ≠ none →
      (copper_set_logging s lb 0 (some g)).1 < 0 ∧ (copper_set_logging s lb 0 (some g)).2 = s)
    := by
  have hw : ∀ g : FILE α, g.fault = none →
      fprintf g log_line.header = (1, { g with out := g.out ++ [log_line.header] }) := by
    intro g hg
    unfold fprintf
    rw [hg]
  have h1 : copper_set_logging s lb 0 (some f) =
      (0, { s with ls := { id := 0, lb_length := 0, lb := lb,
                           lf := some { f with out := f.out ++ [log_line.header] } } }) := by
    unfold copper_set_logging
    simp only [hw f hf]
    rw [if_neg (by decide)]
  refine ⟨⟨rfl, rfl, ?_, ?_⟩, ⟨h1, ?_, ?_, ?_⟩,
    fun g hg => copper_set_logging_fail s lb 0 g hg⟩
  · intro tag a w c
    exact copper_log_disabled _ tag a w c (Or.inr rfl)
  · exact copper_destroy_disabled _ rfl
  · rw [h1]
    unfold copper_set_logging
    simp only [hw { f with out := f.out ++ [log_line.header] } hf]
    rw [if_neg (by decide)]
  · intro tag a w c
    rw [h1]
    exact copper_log_disabled _ tag a w c (Or.inr rfl)
  · rw [h1]
    exact copper_destroy_disabled _ rfl

/-- Witness of C11 (amended) at the record of the unit test, no buffer, an empty stream. -/
theorem set_logging_capacity_zero_witness :
    copper_set_logging test_cop none 0 none =
        (0, { test_cop with ls := { id := 0, lb_length := 0, lb := none, lf := none } }) ∧
    copper_set_logging test_cop none 0 (some empty_file) =
        (0, { test_cop with ls := { id := 0, lb_length := 0, lb := none,
                                    lf := some { out := [log_line.header], fault := none } } }) :=
  ⟨(set_logging_capacity_zero test_cop none empty_file rfl).1.1,
   (set_logging_capacity_zero test_cop none empty_file rfl).2.1.1⟩

/-- C11 as stated fails: on the record of the unit test, `copper_set_logging` with capacity 0
and an empty stream returns 0 and writes the header to the stream; the second call writes it
again. -/
theorem set_logging_capacity_zero_writes_header :
    (copper_set_logging test_cop none 0 (some empty_file)).1 = 0 ∧
    (copper_set_logging test_cop none 0 (some empty_file)).2.ls.lf =
      some { out := [log_line.header], fault := none } ∧
    (copper_set_logging (copper_set_logging test_cop none 0 (some empty_file)).2 none 0
        (copper_set_logging test_cop none 0 (some empty_file)).2.ls.lf).2.ls.lf =
      some { out := [log_line.header, log_line.header], fault := none } :=
  ⟨rfl, rfl, rfl⟩

/-- C12, amended: when the log capacity is 0, `copper_adapt` leaves the log state (sequence
id, buffer and stream) as it was, whatever its arguments, and returns on every reachable
record; `copper_destroy` changes nothing.  The capacity is 0 after a successful `copper_init`
and after a `copper_set_logging` with capacity 0 that returns 0. -/
theorem no_log_write_at_capacity_zero [FloorRing α] (log : α → α) (s : copper α)
    (h0 : s.ls.lb_length = 0) (tag : Nat) (perf : α) :
    (∀ (r : α) (s' : copper α), copper_adapt log s tag perf = some (r, s') → s'.ls = s.ls) ∧
    (Reachable log s →
      ∃ (r : α) (s' : copper α), copper_adapt log s tag perf = some (r, s') ∧ s'.ls = s.ls) ∧
    copper_destroy s = s ∧
    (∀ (cop : copper α) (t pmin pmax pstart : α), (copper_init cop t pmin pmax pstart).1 = 0 →
      (copper_init cop t pmin pmax pstart).2.ls.lb_length = 0) ∧
    (∀ (c : copper α) (lb : Option (Nat → copper_log_buffer α)) (lf : Option (FILE α)),
      (copper_set_logging c lb 0 lf).1 = 0 → (copper_set_logging c lb 0 lf).2.ls.lb_length = 0)
    := by
  have hframe : ∀ (r : α) (s' : copper α), copper_adapt log s tag perf = some (r, s') →
      s'.ls = s.ls := fun r s' h => copper_adapt_ls_disabled log s (Or.inr h0) tag perf r s' h
  refine ⟨hframe, ?_, copper_destroy_disabled s h0, ?_, ?_⟩
  · intro hr
    by_cases hperf : perf < 0
    · exact ⟨_, _, copper_adapt_invalid log s tag perf hperf, rfl⟩
    · obtain ⟨xs', _, hadapt, _⟩ :=
        copper_adapt_of_inv log s (inv_of_reachable log s hr) tag perf (not_lt.mp hperf)
      exact ⟨_, _, hadapt, hframe _ _ hadapt⟩
  · intro cop t pmin pmax pstart h
    obtain ⟨h1, h2, h3, h4⟩ := (copper_init_ok_iff cop t pmin pmax pstart).mp h
    have hc : ¬ (t ≤ 0 ∨ pmin ≤ 0 ∨ pmax < pmin ∨ pstart < pmin ∨ pstart > pmax) := by
      simp only [not_or, not_le, not_lt]
      exact ⟨h1, h2, le_trans h3 h4, h3, h4⟩
    unfold copper_init
    rw [if_neg hc]
  · intro c lb lf h
    unfold copper_set_logging at h ⊢
    cases lf with
    | none => rfl
    | some f =>
      simp only [] at h ⊢
      by_cases hw : (fprintf f log_line.header).1 < 0
      · rw [if_pos hw] at h
        exfalso
        have hneg : (-(((if f.fault.getD 0 = 0 then EIO_code else f.fault.getD 0 : Nat)) : Int))
            < 0 := by
          split_ifs with h1
          · unfold EIO_code
            decide
          · omega
        exact absurd h (ne_of_lt hneg)
      · rw [if_neg hw]

/-- Witness of C12 (amended) at the record of the unit test, whose capacity is 0. -/
theorem no_log_write_at_capacity_zero_witness :
    (∀ (r : ℚ) (s' : copper ℚ), copper_adapt log0 test_cop 0 1 = some (r, s') →
      s'.ls = test_cop.ls) ∧
    (∃ (r : ℚ) (s' : copper ℚ), copper_adapt log0 test_cop 0 1 = some (r, s') ∧
      s'.ls = test_cop.ls) ∧
    copper_destroy test_cop = test_cop :=
  ⟨(no_log_write_at_capacity_zero log0 test_cop (by rw [test_cop_ls]) 0 1).1,
   (no_log_write_at_capacity_zero log0 test_cop (by rw [test_cop_ls]) 0 1).2.1
     test_cop_reachable,
   (no_log_write_at_capacity_zero log0 test_cop (by rw [test_cop_ls]) 0 1).2.2.1⟩

/-- C12 as stated fails: on the record of the unit test configured with a buffer of
capacity 2, a call of `copper_set_logging` with capacity 0 and a stream on which the header
cannot be written returns `-errno` (here -28) and leaves the capacity 2, so the capacity is
not 0 after the call, and the next `copper_adapt` writes slot 0 of the buffer and makes the
sequence id 1. -/
theorem set_logging_capacity_zero_failure_keeps_logging :
    (copper_set_logging (copper_set_logging test_cop (some blank_buf) 2 none).2
      (some blank_buf) 0 (some full_file)).1 = -28 ∧
    (copper_set_logging (copper_set_logging test_cop (some blank_buf) 2 none).2
      (some blank_buf) 0 (some full_file)).2.ls.lb_length = 2 ∧
    (copper_set_logging (copper_set_logging test_cop (some blank_buf) 2 none).2
      (some blank_buf) 0 (some full_file)).2.ls.id = 0 ∧
    ∃ (cap : ℚ) (s' : copper ℚ),
      copper_adapt log0 (copper_set_logging (copper_set_logging test_cop (some blank_buf) 2
        none).2 (some blank_buf) 0 (some full_file)).2 0 1 = some (cap, s') ∧
      s'.ls.id = 1 ∧
      s'.ls.lb = some (Function.update blank_buf 0
        (entry_of (copper_set_logging (copper_set_logging test_cop (some blank_buf) 2
          none).2 (some blank_buf) 0 (some full_file)).2 0 1 cap s')) := by
  have hinv : Inv (copper_set_logging (copper_set_logging test_cop (some blank_buf) 2 none).2
      (some blank_buf) 0 (some full_file)).2 :=
    inv_set_logging _ (inv_set_logging test_cop
      (inv_of_reachable log0 test_cop test_cop_reachable) _ _ _) _ _ _
  obtain ⟨cap, s', hstep, _, hlb, hid, _⟩ :=
    copper_adapt_logs log0 _ hinv blank_buf rfl (by decide) 0 1 zero_le_one
  refine ⟨rfl, rfl, rfl, cap, s', hstep, ?_, ?_⟩
  · rw [hid]
    rfl
  · rw [hlb]
    rfl

/-- C13 at a tag that does not fit in 32 bits: on the record of the unit test with a log
buffer of capacity 1, `copper_adapt(cop, 2^32, 1.0)` stores in slot 0 an entry with sequence
id 0, the performance, the estimator state, control value and error after the step and the
returned cap, and makes the sequence id 1, but the user tag of the entry is 0, not `2^32`:
the parameter `tag` of `copper_log` is a `uint32_t`. -/
theorem copper_adapt_truncates_tag :
    ∃ (cap : ℚ) (s' : copper ℚ) (buf' : Nat → copper_log_buffer ℚ),
      copper_adapt log0 (copper_set_logging test_cop (some blank_buf) 1 none).2 (2 ^ 32) 1 =
        some (cap, s') ∧
      s'.ls.lb = some buf' ∧
      (buf' 0).id = 0 ∧ (buf' 0).user_tag = 0 ∧ (buf' 0).user_tag ≠ 2 ^ 32 ∧
      (buf' 0).constraint_achieved = 1 ∧ (buf' 0).fs = s'.fs ∧ (buf' 0).u = s'.xs.u ∧
      (buf' 0).e = s'.xs.e ∧ (buf' 0).cu = cap ∧ s'.ls.id = 1 := by
  have hinv0 : Inv (copper_set_logging test_cop (some blank_buf) 1 none).2 :=
    inv_set_logging test_cop (inv_of_reachable log0 test_cop test_cop_reachable) _ _ _
  obtain ⟨cap, s', hstep, _, hlb, hid, _⟩ :=
    copper_adapt_logs log0 _ hinv0 blank_buf rfl (by decide) (2 ^ 32) 1 zero_le_one
  have hslot : (copper_set_logging test_cop (some blank_buf) 1 none).2.ls.id %
      (copper_set_logging test_cop (some blank_buf) 1 none).2.ls.lb_length = 0 := rfl
  rw [hslot] at hlb
  have htag : (2 ^ 32 : Nat) % UINT32_MOD = 0 := by
    unfold UINT32_MOD
    norm_num
  refine ⟨cap, s', _, hstep, hlb, ?_, ?_, ?_, ?_, ?_, ?_, ?_, ?_, ?_⟩
  · rw [Function.update_same]
    rfl
  · rw [Function.update_same]
    exact htag
  · rw [Function.update_same]
    show (2 ^ 32 : Nat) % UINT32_MOD ≠ 2 ^ 32
    rw [htag]
    norm_num
  · rw [Function.update_same]
    rfl
  · rw [Function.update_same]
    rfl
  · rw [Function.update_same]
    rfl
  · rw [Function.update_same]
    rfl
  · rw [Function.update_same]
    rfl
  · rw [hid]
    rfl

/-- C14: for every estimator state with `p >= 0`, `q >= 0` and `r > 0`, every observed
performance and every previous control value `h`, `estimate_base_workload` leaves
`p = p_minus * r / (h^2 * p_minus + r)` with `p_minus = p_old + q`, so `0 <= p <= p_old + q`;
and `p >= 0` in every reachable record. -/
theorem covariance_nonneg [FloorRing α] (log : α → α) (fs : copper_filter_state α)
    (perf h : α) (hp : 0 ≤ fs.p) (hq : 0 ≤ fs.q) (hr : 0 < fs.r) :
    ((estimate_base_workload fs perf h).2.p_minus = fs.p + fs.q ∧
     (estimate_base_workload fs perf h).2.p =
       (estimate_base_workload fs perf h).2.p_minus * fs.r /
         (h ^ 2 * (estimate_base_workload fs perf h).2.p_minus + fs.r) ∧
     0 ≤ (estimate_base_workload fs perf h).2.p ∧
     (estimate_base_workload fs perf h).2.p ≤ fs.p + fs.q) ∧
    ∀ s : copper α, Reachable log s → 0 ≤ s.fs.p := by
  obtain ⟨h1, h2, h3, h4⟩ := estimate_base_workload_p fs perf h hp hq hr
  refine ⟨⟨h1, ?_, h3, h4⟩, fun s hs => (inv_of_reachable log s hs).p_nonneg⟩
  rw [h1]
  exact h2

/-- Witness of C14 at the estimator state of `copper_init`, performance 1 and `h = -3`. -/
theorem covariance_nonneg_witness :
    ((estimate_base_workload init_fs 1 (-3)).2.p_minus = init_fs.p + init_fs.q ∧
     (estimate_base_workload init_fs 1 (-3)).2.p =
       (estimate_base_workload init_fs 1 (-3)).2.p_minus * init_fs.r /
         ((-3) ^ 2 * (estimate_base_workload init_fs 1 (-3)).2.p_minus + init_fs.r) ∧
     0 ≤ (estimate_base_workload init_fs 1 (-3)).2.p ∧
     (estimate_base_workload init_fs 1 (-3)).2.p ≤ init_fs.p + init_fs.q) ∧
    ∀ s : copper ℚ, Reachable log0 s → 0 ≤ s.fs.p :=
  covariance_nonneg log0 init_fs 1 (-3) (by norm_num [init_fs]) (by norm_num [init_fs])
    (by norm_num [init_fs])

/-- C15: in every reachable record the estimate `x_hat` is positive, and a `copper_adapt`
with a valid performance leaves it positive: the update of `estimate_base_workload` divides
by a positive number, its new estimate is positive, and the workload it returns is
`1 / x_hat` for that new estimate, a positive number.  After a successful `copper_init` the
estimate is 0.2. -/
theorem workload_estimate_positive [FloorRing α] (log : α → α) (s : copper α)
    (h : Reachable log s) :
    0 < s.fs.x_hat ∧
    (∀ (tag : Nat) (perf : α), 0 ≤ perf →
      0 < s.xs.u * (s.fs.p + s.fs.q) * s.xs.u + s.fs.r ∧
      0 < (estimate_base_workload s.fs perf s.xs.u).2.x_hat ∧
      (estimate_base_workload s.fs perf s.xs.u).1 =
        1 / (estimate_base_workload s.fs perf s.xs.u).2.x_hat ∧
      0 < (estimate_base_workload s.fs perf s.xs.u).1 ∧
      ∃ (cap : α) (s' : copper α), copper_adapt log s tag perf = some (cap, s') ∧
        s'.fs = (estimate_base_workload s.fs perf s.xs.u).2 ∧ 0 < s'.fs.x_hat) ∧
    (∀ (cop : copper α) (t pmin pmax pstart : α), (copper_init cop t pmin pmax pstart).1 = 0 →
      (copper_init cop t pmin pmax pstart).2.fs.x_hat = 2 / 10) := by
  have hs := inv_of_reachable log s h
  refine ⟨hs.x_hat_pos, ?_, ?_⟩
  · intro tag perf hperf
    have hq : (0 : α) ≤ s.fs.q := by rw [hs.q_eq]; norm_num
    have hr : (0 : α) < s.fs.r := by rw [hs.r_eq]; norm_num
    obtain ⟨hk1, _, _, _, _, _, hk7, hk8, hk9⟩ := estimate_base_workload_inv s.fs perf s.xs.u
      hs.x_hat_pos hs.p_nonneg hq hr hperf (le_trans zero_le_one hs.one_le_u)
    obtain ⟨cap, s', hadapt, hfs, _⟩ := adapt_fs_eq log s hs tag perf hperf
    refine ⟨hk7, hk1, hk8, hk9, cap, s', hadapt, hfs, ?_⟩
    rw [hfs]
    exact hk1
  · intro cop t pmin pmax pstart h0
    obtain ⟨h1, h2, h3, h4⟩ := (copper_init_ok_iff cop t pmin pmax pstart).mp h0
    have hc : ¬ (t ≤ 0 ∨ pmin ≤ 0 ∨ pmax < pmin ∨ pstart < pmin ∨ pstart > pmax) := by
      simp only [not_or, not_le, not_lt]
      exact ⟨h1, h2, le_trans h3 h4, h3, h4⟩
    unfold copper_init
    rw [if_neg hc]
    rfl

/-- Witness of C15 at the record of the unit test. -/
theorem workload_estimate_positive_witness :
    0 < test_cop.fs.x_hat ∧
    ∃ (cap : ℚ) (s' : copper ℚ), copper_adapt log0 test_cop 0 1 = some (cap, s') ∧
      s'.fs = (estimate_base_workload test_cop.fs 1 test_cop.xs.u).2 ∧ 0 < s'.fs.x_hat :=
  ⟨(workload_estimate_positive log0 test_cop test_cop_reachable).1,
   ((workload_estimate_positive log0 test_cop test_cop_reachable).2.1 0 1 zero_le_one).2.2.2.2⟩

/-- C16 on a record without logging: after `copper_init(&cop, 1.0, 0.01, 100.0, 50.0)` and
`copper_set_gain_limit(&cop, 0.5)`, the second step `copper_adapt(&cop, 1, 0.5)` is given the
log sequence id, still 0, as its step id and applies no gain limiting: it stores the clamped
raw control value, whereas the gain is `8/9` and the gain-limited value is strictly smaller. -/
theorem gain_limit_skipped_without_logging :
    ∃ (cap1 : ℚ) (s1 : copper ℚ) (cap2 : ℚ) (s2 : copper ℚ),
      copper_adapt log0 gain_cop 0 1 = some (cap1, s1) ∧
      copper_adapt log0 s1 1 (1 / 2) = some (cap2, s2) ∧
      s1.ls.id = 0 ∧ s1.xs.gl = 1 / 2 ∧
      s2.xs.u = clamp (xup_raw s1.xs s1.ctx.constraint_target (1 / 2)
        (estimate_base_workload s1.fs (1 / 2) s1.xs.u).1) 1
        (s1.ctx.cost_max / s1.ctx.cost_min) ∧
      xup_gain s1.xs.gl (s1.ctx.constraint_target - 1 / 2) s1.xs.eo
        s1.ctx.constraint_target = 8 / 9 ∧
      clamp (8 / 9 * clamp (xup_raw s1.xs s1.ctx.constraint_target (1 / 2)
        (estimate_base_workload s1.fs (1 / 2) s1.xs.u).1) 1
        (s1.ctx.cost_max / s1.ctx.cost_min)) 1 (s1.ctx.cost_max / s1.ctx.cost_min)
        < s2.xs.u := by
  have hinv0 : Inv gain_cop := inv_of_reachable log0 gain_cop gain_cop_reachable
  obtain ⟨cap1, s1, hstep1, _, _, hctx1, hgl1, heo1⟩ :=
    adapt_u_eq log0 gain_cop hinv0 0 1 zero_le_one
  have hinv1 : Inv s1 := inv_adapt log0 gain_cop hinv0 0 1 cap1 s1 hstep1
  have hls0 : gain_cop.ls = { id := 0, lb_length := 0, lb := none, lf := none } := by
    rw [gain_cop_eq]
    exact test_cop_ls
  have hls1 : s1.ls = gain_cop.ls :=
    copper_adapt_ls_disabled log0 gain_cop (Or.inl (by rw [hls0])) 0 1 cap1 s1 hstep1
  have hid1 : s1.ls.id = 0 := by rw [hls1, hls0]
  have hctx0 : gain_cop.ctx =
      { constraint_target := 1, cost_min := 1 / 100, cost_max := 100 } := by
    rw [gain_cop_eq, test_cop_eq]
  have hgl0 : gain_cop.xs.gl = 1 / 2 := by rw [gain_cop_eq]
  rw [hctx0] at heo1
  rw [hgl0] at hgl1
  have hctx1' : s1.ctx = { constraint_target := 1, cost_min := 1 / 100, cost_max := 100 } := by
    rw [hctx1, hctx0]
  obtain ⟨cap2, s2, hstep2, hu2, _⟩ :=
    adapt_u_eq log0 s1 hinv1 1 (1 / 2) (by norm_num)
  have hnolimit : s2.xs.u = clamp (xup_raw s1.xs s1.ctx.constraint_target (1 / 2)
      (estimate_base_workload s1.fs (1 / 2) s1.xs.u).1) 1
      (s1.ctx.cost_max / s1.ctx.cost_min) := by
    rw [hu2]
    unfold xup_new_u
    rw [if_neg (by rw [hid1]; decide)]
  have hgain : xup_gain s1.xs.gl (s1.ctx.constraint_target - 1 / 2) s1.xs.eo
      s1.ctx.constraint_target = 8 / 9 := by
    rw [hgl1, heo1, hctx1']
    unfold xup_gain xup_dens xup_ens
    norm_num [abs_of_pos]
  refine ⟨cap1, s1, cap2, s2, hstep1, hstep2, hid1, hgl1, hnolimit, hgain, ?_⟩
  rw [hnolimit]
  have hq : (0 : ℚ) ≤ s1.fs.q := by rw [hinv1.q_eq]; norm_num
  have hr : (0 : ℚ) < s1.fs.r := by rw [hinv1.r_eq]; norm_num
  have hw := (estimate_base_workload_inv s1.fs (1 / 2) s1.xs.u hinv1.x_hat_pos hinv1.p_nonneg
    hq hr (by norm_num) (le_trans zero_le_one hinv1.one_le_u)).2.2.2.2.2.2.2.2
  have hraw : 1 < xup_raw s1.xs s1.ctx.constraint_target (1 / 2)
      (estimate_base_workload s1.fs (1 / 2) s1.xs.u).1 := by
    rw [xup_raw_default s1.xs _ _ _ hinv1.p1_eq hinv1.p2_eq hinv1.z1_eq hinv1.mu_eq,
      hinv1.uo_eq, hctx1']
    have h1 := hinv1.one_le_u
    have h2 : 0 < (estimate_base_workload s1.fs (1 / 2) s1.xs.u).1 * ((1 : ℚ) - 1 / 2) :=
      mul_pos hw (by norm_num)
    linarith
  have humax : (1 : ℚ) < s1.ctx.cost_max / s1.ctx.cost_min := by
    rw [hctx1']
    norm_num
  exact clamp_gain_lt _ _ _ (by norm_num) (clamp_gt_one _ _ hraw humax)
    (clamp_le _ _ _ (le_of_lt humax))

/-- C17: for every target `> 0`, all errors `e` and `e1` and every gain limit in `[0, 1)`,
`0 <= ens < 1`, `0 < dens <= 1` and `0 < gain <= 1` with `gain = 1 - gl * dens * ens`; hence,
for a range `[1, umax]`, the gain-limited value `clamp(gain * u1, 1, umax)` computed from the
clamped value `u1 = clamp(raw, 1, umax)` is at most `u1` and lies in `[1, umax]`, and this is
the control value that `calculate_xup` stores when it applies gain limiting.  Every
reachable record has a target `> 0`, a gain limit in `[0, 1)` and `cost_max / cost_min >= 1`. -/
theorem gain_limiter_bounds [FloorRing α] (target umax : α) (ht : 0 < target)
    (humax : 1 ≤ umax) :
    (∀ (e e1 gl raw : α), 0 ≤ gl → gl < 1 →
      (0 ≤ xup_ens e target ∧ xup_ens e target < 1) ∧
      (0 < xup_dens e e1 target ∧ xup_dens e e1 target ≤ 1) ∧
      xup_gain gl e e1 target = 1 - gl * xup_dens e e1 target * xup_ens e target ∧
      (0 < xup_gain gl e e1 target ∧ xup_gain gl e e1 target ≤ 1) ∧
      clamp (xup_gain gl e e1 target * clamp raw 1 umax) 1 umax ≤ clamp raw 1 umax ∧
      1 ≤ clamp (xup_gain gl e e1 target * clamp raw 1 umax) 1 umax ∧
      clamp (xup_gain gl e e1 target * clamp raw 1 umax) 1 umax ≤ umax) ∧
    (∀ (log : α → α) (xs : copper_xup_state α) (achieved w cz : α) (id : Nat),
      get_confidence_zone log xs.p1 xs.epc = some cz → (id : α) > ((⌈cz⌉ : ℤ) : α) →
      ∃ xs' : copper_xup_state α,
        calculate_xup log xs target achieved w id umax = some xs' ∧
        xs'.e = target - achieved ∧
        xs'.u = clamp (xup_gain xs.gl xs'.e xs.eo target *
          clamp (xup_raw xs target achieved w) 1 umax) 1 umax) ∧
    (∀ (log : α → α) (s : copper α), Reachable log s →
      0 < s.ctx.constraint_target ∧ 0 ≤ s.xs.gl ∧ s.xs.gl < 1 ∧
      1 ≤ s.ctx.cost_max / s.ctx.cost_min) := by
  refine ⟨?_, ?_, fun log s hr =>
    ⟨(inv_of_reachable log s hr).target_pos, (inv_of_reachable log s hr).gl_nonneg,
     (inv_of_reachable log s hr).gl_lt, umax_ge_one s (inv_of_reachable log s hr)⟩⟩
  · intro e e1 gl raw h0 h1
    obtain ⟨hg0, hg1⟩ := xup_gain_bounds gl e e1 target ht h0 h1
    obtain ⟨hc1, hc2, hc3⟩ := clamp_gain_le (xup_gain gl e e1 target) (clamp raw 1 umax) umax
      hg1 (clamp_ge raw 1 umax humax) (clamp_le raw 1 umax humax)
    exact ⟨xup_ens_bounds e target ht, xup_dens_bounds e e1 target, rfl, ⟨hg0, hg1⟩, hc1, hc2,
      hc3⟩
  · intro log xs achieved w cz id hcz hid
    rw [calculate_xup_eq, hcz, Option.map_some']
    refine ⟨_, rfl, rfl, ?_⟩
    show xup_new_u xs target achieved w umax ((id : α) > ((⌈cz⌉ : ℤ) : α)) = _
    unfold xup_new_u
    rw [if_pos hid]

/-- Witness of C17 for target 1 and the range `[1, 10000]`, at the errors `1/2` and `0`, the
gain limit `1/2` and the raw value 20000. -/
theorem gain_limiter_bounds_witness :
    (0 ≤ xup_ens (1 / 2 : ℚ) 1 ∧ xup_ens (1 / 2 : ℚ) 1 < 1) ∧
    (0 < xup_dens (1 / 2 : ℚ) 0 1 ∧ xup_dens (1 / 2 : ℚ) 0 1 ≤ 1) ∧
    xup_gain (1 / 2 : ℚ) (1 / 2) 0 1 =
      1 - 1 / 2 * xup_dens (1 / 2 : ℚ) 0 1 * xup_ens (1 / 2 : ℚ) 1 ∧
    (0 < xup_gain (1 / 2 : ℚ) (1 / 2) 0 1 ∧ xup_gain (1 / 2 : ℚ) (1 / 2) 0 1 ≤ 1) ∧
    clamp (xup_gain (1 / 2 : ℚ) (1 / 2) 0 1 * clamp 20000 1 10000) 1 10000 ≤
      clamp 20000 1 10000 ∧
    1 ≤ clamp (xup_gain (1 / 2 : ℚ) (1 / 2) 0 1 * clamp 20000 1 10000) 1 10000 ∧
    clamp (xup_gain (1 / 2 : ℚ) (1 / 2) 0 1 * clamp 20000 1 10000) 1 10000 ≤ 10000 :=
  (gain_limiter_bounds (1 : ℚ) 10000 (by norm_num) (by norm_num)).1 (1 / 2) 0 (1 / 2) 20000
    (by norm_num) (by norm_num)

/-- C18: in every reachable record the tuning constants are those of `copper_init`
(`p1 = p2 = z1 = 0`, `mu = 1`), so for every workload `w` the coefficients of `calculate_xup`
are `A = -1`, `B = 0`, `C = -w`, `D = 0`, `F = -1`, the raw control update is
`uo + w * (target - achieved)`, and the control value before gain limiting is
`clamp(uo + w * (target - achieved), 1, umax)`: this is what `calculate_xup` stores when the
id it is given is 0, and what it scales by the gain and clamps again otherwise. -/
theorem default_pole_placement [FloorRing α] (log : α → α) (s : copper α)
    (h : Reachable log s) (target achieved w umax : α) (id : Nat) :
    (s.xs.p1 = 0 ∧ s.xs.p2 = 0 ∧ s.xs.z1 = 0 ∧ s.xs.mu = 1) ∧
    (xup_A s.xs = -1 ∧ xup_B s.xs = 0 ∧ xup_C s.xs w = -w ∧ xup_D s.xs w = 0 ∧
      xup_F s.xs = -1) ∧
    xup_F s.xs * ((xup_A s.xs * s.xs.uo) + (xup_B s.xs * s.xs.uoo) +
      (xup_C s.xs w * (target - achieved)) + (xup_D s.xs w * s.xs.eo)) =
      s.xs.uo + w * (target - achieved) ∧
    xup_raw s.xs target achieved w = s.xs.uo + w * (target - achieved) ∧
    ∃ xs' : copper_xup_state α,
      calculate_xup log s.xs target achieved w id umax = some xs' ∧
      xs'.u = (if 0 < id then
          clamp (xup_gain s.xs.gl (target - achieved) s.xs.eo target *
            clamp (s.xs.uo + w * (target - achieved)) 1 umax) 1 umax
        else clamp (s.xs.uo + w * (target - achieved)) 1 umax) := by
  have hs := inv_of_reachable log s h
  have hraw := xup_raw_default s.xs target achieved w hs.p1_eq hs.p2_eq hs.z1_eq hs.mu_eq
  refine ⟨⟨hs.p1_eq, hs.p2_eq, hs.z1_eq, hs.mu_eq⟩,
    xup_coefficients s.xs w hs.p1_eq hs.p2_eq hs.z1_eq hs.mu_eq, hraw, hraw, ?_⟩
  rw [calculate_xup_default_eq log s.xs _ _ _ _ _ hs.p1_eq hs.epc_eq]
  refine ⟨_, rfl, ?_⟩
  show xup_new_u s.xs target achieved w umax (0 < id) = _
  unfold xup_new_u
  rw [hraw]

/-- Witness of C18 at the record of the unit test, workload 3, performance `1/2`. -/
theorem default_pole_placement_witness :
    (xup_A test_cop.xs = -1 ∧ xup_B test_cop.xs = 0 ∧ xup_C test_cop.xs 3 = -3 ∧
      xup_D test_cop.xs 3 = 0 ∧ xup_F test_cop.xs = -1) ∧
    xup_raw test_cop.xs 1 (1 / 2) 3 = test_cop.xs.uo + 3 * (1 - 1 / 2) :=
  ⟨(default_pole_placement log0 test_cop test_cop_reachable 1 (1 / 2) 3 10000 0).2.1,
   (default_pole_placement log0 test_cop test_cop_reachable 1 (1 / 2) 3 10000 0).2.2.2.1⟩

/-- C19: on every reachable record, whatever its gain limit, a `copper_adapt` whose
performance equals the target leaves the control value `u` unchanged and returns
`u * cost_min`, which is the cap that the previous valid `copper_adapt` returned; on the
record of a successful `copper_init` it returns `power_start`. -/
theorem zero_error_fixed_point [FloorRing α] (log : α → α) (s : copper α)
    (h : Reachable log s) (tag : Nat) :
    (∃ s' : copper α,
      copper_adapt log s tag s.ctx.constraint_target = some (s.xs.u * s.ctx.cost_min, s') ∧
      s'.xs.u = s.xs.u ∧ s'.ctx = s.ctx) ∧
    (∀ (s0 : copper α) (tag0 : Nat) (perf0 cap0 : α), Reachable log s0 → 0 ≤ perf0 →
      copper_adapt log s0 tag0 perf0 = some (cap0, s) →
      ∃ s' : copper α, copper_adapt log s tag s.ctx.constraint_target = some (cap0, s')) ∧
    (∀ (cop : copper α) (t pmin pmax pstart : α),
      s = (copper_init cop t pmin pmax pstart).2 → (copper_init cop t pmin pmax pstart).1 = 0 →
      ∃ s' : copper α, copper_adapt log s tag t = some (pstart, s')) := by
  have hs := inv_of_reachable log s h
  have hfix : ∃ s' : copper α,
      copper_adapt log s tag s.ctx.constraint_target = some (s.xs.u * s.ctx.cost_min, s') ∧
      s'.xs.u = s.xs.u ∧ s'.ctx = s.ctx := by
    obtain ⟨cap, s', hadapt, hu, hcap, hctx, _⟩ :=
      adapt_u_eq log s hs tag s.ctx.constraint_target (le_of_lt hs.target_pos)
    have hraw : xup_raw s.xs s.ctx.constraint_target s.ctx.constraint_target
        (estimate_base_workload s.fs s.ctx.constraint_target s.xs.u).1 = s.xs.u := by
      rw [xup_raw_default s.xs _ _ _ hs.p1_eq hs.p2_eq hs.z1_eq hs.mu_eq, hs.uo_eq, sub_self,
        mul_zero, add_zero]
    have hclamp : clamp s.xs.u 1 (s.ctx.cost_max / s.ctx.cost_min) = s.xs.u :=
      clamp_of_mem _ _ _ hs.one_le_u hs.u_le
    have hu' : s'.xs.u = s.xs.u := by
      rw [hu]
      unfold xup_new_u
      rw [hraw, sub_self, xup_gain_no_error, one_mul, hclamp]
      split_ifs
      · exact hclamp
      · rfl
    refine ⟨s', ?_, hu', hctx⟩
    rw [hadapt, hcap, hu']
  refine ⟨hfix, ?_, ?_⟩
  · intro s0 tag0 perf0 cap0 hr0 hperf0 hstep0
    obtain ⟨s', hadapt, _⟩ := hfix
    rw [adapt_cap_eq log s0 (inv_of_reachable log s0 hr0) tag0 perf0 cap0 s hperf0 hstep0]
    exact ⟨s', hadapt⟩
  · intro cop t pmin pmax pstart hs0 hok
    obtain ⟨s', hadapt, _⟩ := hfix
    have hcap := init_cap cop t pmin pmax pstart hok
    rw [← hs0] at hcap
    have ht : s.ctx.constraint_target = t := by
      obtain ⟨h1, h2, h3, h4⟩ := (copper_init_ok_iff cop t pmin pmax pstart).mp hok
      have hc : ¬ (t ≤ 0 ∨ pmin ≤ 0 ∨ pmax < pmin ∨ pstart < pmin ∨ pstart > pmax) := by
        simp only [not_or, not_le, not_lt]
        exact ⟨h1, h2, le_trans h3 h4, h3, h4⟩
      rw [hs0]
      unfold copper_init
      rw [if_neg hc]
    rw [ht, hcap] at hadapt
    exact ⟨s', hadapt⟩

/-- Witness of C19: the first step of the unit test, `copper_adapt(&cop, 0, 1.0)` after
`copper_init(&cop, 1.0, 0.01, 100.0, 50.0)`, returns 50. -/
theorem zero_error_fixed_point_witness :
    ∃ s' : copper ℚ, copper_adapt log0 test_cop 0 1 = some (50, s') :=
  (zero_error_fixed_point log0 test_cop test_cop_reachable 0).2.2 blank 1 (1 / 100) 100 50 rfl
    test_cop_init_ok

/-- C20: on a reachable record whose gain limit is 0, a `copper_adapt` with
`0 <= performance < target` returns a cap that is at least `u * cost_min`, the cap returned
by the previous valid step (`power_start` on the record of `copper_init`), and a call with
`performance > target` returns a cap that is at most that cap. -/
theorem cap_moves_toward_target [FloorRing α] (log : α → α) (s : copper α)
    (h : Reachable log s) (hgl : s.xs.gl = 0) (tag : Nat) (perf : α) (hperf : 0 ≤ perf) :
    (∃ (cap : α) (s' : copper α),
      copper_adapt log s tag perf = some (cap, s') ∧
      (perf < s.ctx.constraint_target → s.xs.u * s.ctx.cost_min ≤ cap) ∧
      (s.ctx.constraint_target < perf → cap ≤ s.xs.u * s.ctx.cost_min)) ∧
    (∀ (s0 : copper α) (tag0 : Nat) (perf0 cap0 : α), Reachable log s0 → 0 ≤ perf0 →
      copper_adapt log s0 tag0 perf0 = some (cap0, s) → cap0 = s.xs.u * s.ctx.cost_min) ∧
    (∀ (cop : copper α) (t pmin pmax pstart : α),
      s = (copper_init cop t pmin pmax pstart).2 → (copper_init cop t pmin pmax pstart).1 = 0 →
      s.xs.u * s.ctx.cost_min = pstart) := by
  have hs := inv_of_reachable log s h
  refine ⟨?_, ?_, ?_⟩
  · obtain ⟨cap, s', hadapt, hu, hcap, _⟩ := adapt_u_eq log s hs tag perf hperf
    have humax := umax_ge_one s hs
    have hq : (0 : α) ≤ s.fs.q := by rw [hs.q_eq]; norm_num
    have hr : (0 : α) < s.fs.r := by rw [hs.r_eq]; norm_num
    have hw := (estimate_base_workload_inv s.fs perf s.xs.u hs.x_hat_pos hs.p_nonneg
      hq hr hperf (le_trans zero_le_one hs.one_le_u)).2.2.2.2.2.2.2.2
    have hu' : s'.xs.u = clamp (s.xs.u + (estimate_base_workload s.fs perf s.xs.u).1 *
        (s.ctx.constraint_target - perf)) 1 (s.ctx.cost_max / s.ctx.cost_min) := by
      rw [hu]
      unfold xup_new_u
      rw [xup_raw_default s.xs _ _ _ hs.p1_eq hs.p2_eq hs.z1_eq hs.mu_eq, hs.uo_eq, hgl,
        xup_gain_zero, one_mul,
        clamp_of_mem (clamp _ 1 _) 1 _ (clamp_ge _ _ _ humax) (clamp_le _ _ _ humax)]
      split_ifs <;> rfl
    have hclamp : clamp s.xs.u 1 (s.ctx.cost_max / s.ctx.cost_min) = s.xs.u :=
      clamp_of_mem _ _ _ hs.one_le_u hs.u_le
    refine ⟨cap, s', hadapt, ?_, ?_⟩
    · intro hlt
      rw [hcap, hu']
      apply mul_le_mul_of_nonneg_right _ (le_of_lt hs.min_pos)
      have hmono := clamp_mono s.xs.u (s.xs.u + (estimate_base_workload s.fs perf s.xs.u).1 *
        (s.ctx.constraint_target - perf)) 1 (s.ctx.cost_max / s.ctx.cost_min) humax
        (by
          have : 0 ≤ (estimate_base_workload s.fs perf s.xs.u).1 *
              (s.ctx.constraint_target - perf) :=
            mul_nonneg (le_of_lt hw) (by linarith)
          linarith)
      rw [hclamp] at hmono
      exact hmono
    · intro hgt
      rw [hcap, hu']
      apply mul_le_mul_of_nonneg_right _ (le_of_lt hs.min_pos)
      have hmono := clamp_mono (s.xs.u + (estimate_base_workload s.fs perf s.xs.u).1 *
        (s.ctx.constraint_target - perf)) s.xs.u 1 (s.ctx.cost_max / s.ctx.cost_min) humax
        (by
          have : (estimate_base_workload s.fs perf s.xs.u).1 *
              (s.ctx.constraint_target - perf) ≤ 0 :=
            mul_nonpos_of_nonneg_of_nonpos (le_of_lt hw) (by linarith)
          linarith)
      rw [hclamp] at hmono
      exact hmono
  · intro s0 tag0 perf0 cap0 hr0 hperf0 hstep0
    exact adapt_cap_eq log s0 (inv_of_reachable log s0 hr0) tag0 perf0 cap0 s hperf0 hstep0
  · intro cop t pmin pmax pstart hs0 hok
    rw [hs0]
    exact init_cap cop t pmin pmax pstart hok

/-- Witness of C20 at the record of the unit test (gain limit 0, target 1), with the
performance `1/2` below the target. -/
theorem cap_moves_toward_target_witness :
    ∃ (cap : ℚ) (s' : copper ℚ),
      copper_adapt log0 test_cop 0 (1 / 2) = some (cap, s') ∧
      ((1 / 2 : ℚ) < test_cop.ctx.constraint_target →
        test_cop.xs.u * test_cop.ctx.cost_min ≤ cap) ∧
      (test_cop.ctx.constraint_target < (1 / 2 : ℚ) →
        cap ≤ test_cop.xs.u * test_cop.ctx.cost_min) :=
  (cap_moves_toward_target log0 test_cop test_cop_reachable (by rw [test_cop_eq]; rfl) 0
    (1 / 2) (by norm_num)).1

/-- C21: in a reachable record with logging disabled (no buffer or capacity 0) the log
sequence id, which `copper_adapt` passes to `calculate_xup` as the step id, is 0 and stays 0,
so a valid step stores the clamped raw control value, without gain limiting; for two gain
limits in `[0, 1)` and every sequence of `(tag, performance)` inputs, the record with the one
and the record with the other gain limit (the records that `copper_set_gain_limit` gives)
return the same sequence of values, one for each call. -/
theorem gain_limit_ignored_without_logging [FloorRing α] (log : α → α) (s : copper α)
    (h : Reachable log s) (hdis : s.ls.lb = none ∨ s.ls.lb_length = 0) (g1 g2 : α)
    (h1 : 0 ≤ g1 ∧ g1 < 1) (h2 : 0 ≤ g2 ∧ g2 < 1) (inputs : List (Nat × α)) :
    s.ls.id = 0 ∧
    (∀ (tag : Nat) (perf : α), 0 ≤ perf →
      ∃ (cap : α) (s' : copper α),
        copper_adapt log s tag perf = some (cap, s') ∧
        calculate_xup log s.xs s.ctx.constraint_target perf
          (estimate_base_workload s.fs perf s.xs.u).1 s.ls.id
          (s.ctx.cost_max / s.ctx.cost_min) = some s'.xs ∧
        s'.xs.u = clamp (xup_raw s.xs s.ctx.constraint_target perf
          (estimate_base_workload s.fs perf s.xs.u).1) 1 (s.ctx.cost_max / s.ctx.cost_min) ∧
        s'.ls = s.ls ∧ s'.ls.id = 0) ∧
    adapt_returns log (with_gain_limit s g1) inputs =
      adapt_returns log (with_gain_limit s g2) inputs ∧
    (adapt_returns log (with_gain_limit s g1) inputs).length = inputs.length ∧
    (adapt_returns log (with_gain_limit s g2) inputs).length = inputs.length ∧
    copper_set_gain_limit s g1 = (0, with_gain_limit s g1) ∧
    copper_set_gain_limit s g2 = (0, with_gain_limit s g2) := by
  have hset : ∀ g : α, 0 ≤ g ∧ g < 1 → copper_set_gain_limit s g = (0, with_gain_limit s g) := by
    intro g hg
    have hc : ¬ (g < 0 ∨ g ≥ 1) := by
      simp only [not_or, not_lt, not_le, ge_iff_le]
      exact hg
    unfold copper_set_gain_limit
    rw [if_neg hc]
    rfl
  have hs := inv_of_reachable log s h
  have hid := reachable_disabled_id log s h hdis
  have hinv1 := inv_with_gain_limit s hs g1 h1.1 h1.2
  have hinv2 := inv_with_gain_limit s hs g2 h2.1 h2.2
  have hrun : adapt_returns log (with_gain_limit s g1) inputs =
      adapt_returns log (with_gain_limit s g2) inputs ∧
      (adapt_returns log (with_gain_limit s g1) inputs).length = inputs.length :=
    adapt_returns_gain_limit log g2 inputs (with_gain_limit s g1) hinv1 hinv2 hdis hid
  refine ⟨hid, ?_, hrun.1, hrun.2, ?_, hset g1 h1, hset g2 h2⟩
  · intro tag perf hperf
    have hstep := adapt_disabled_eq log s hs hdis hid tag perf hperf
    obtain ⟨xs', hcalc, hadapt, _⟩ := copper_adapt_of_inv log s hs tag perf hperf
    rw [hadapt] at hstep
    have hs' := (Prod.mk.inj (Option.some.inj hstep)).2
    refine ⟨_, _, hadapt, ?_, ?_, ?_, ?_⟩
    · rw [hcalc, copper_log_xs]
    · rw [hs']
    · rw [hs']
    · rw [hs']
      exact hid
  · rw [← hrun.1]
    exact hrun.2

/-- Witness of C21 at the record of the unit test (no buffer), with the gain limits 0 and
`1/2` and the steps `copper_adapt(&cop, 0, 1.0)`, `copper_adapt(&cop, 1, 0.5)`. -/
theorem gain_limit_ignored_without_logging_witness :
    adapt_returns log0 (with_gain_limit test_cop 0) [(0, 1), (1, 1 / 2)] =
      adapt_returns log0 (with_gain_limit test_cop (1 / 2)) [(0, 1), (1, 1 / 2)] ∧
    (adapt_returns log0 (with_gain_limit test_cop 0) [(0, 1), (1, 1 / 2)]).length = 2 :=
  ⟨(gain_limit_ignored_without_logging log0 test_cop test_cop_reachable
      (Or.inl (by rw [test_cop_ls])) 0 (1 / 2) (by norm_num) (by norm_num)
      [(0, 1), (1, 1 / 2)]).2.2.1,
   (gain_limit_ignored_without_logging log0 test_cop test_cop_reachable
      (Or.inl (by rw [test_cop_ls])) 0 (1 / 2) (by norm_num) (by norm_num)
      [(0, 1), (1, 1 / 2)]).2.2.2.1⟩

end Claims

end Copper
